import Mathlib

/-!
Verification development for the studiolibrary repository.

The Python sources are shallowly embedded as pure Lean functions:

* JSON objects (the sidecar database mapping normalized paths to
  per-column records) become association lists with Python `dict`
  semantics (`alookup`, `dictSet`, `dictUpdate`, `dictSetdefault`).
* Filesystem state is passed explicitly: a list of existing paths, the
  database file content with its modification time, and the list of
  paths that `studiolibrary.findItems` discovers.
* `cmds.py` functions (`updateJson`, `renamePath`, `generateUniquePath`,
  `splitPath`, ...) and `librarymodel.py` methods (`updatePaths`,
  `saveItemData`, `sync`, `isDirty`, ...) are translated line by line.
* The tree-view rows of `combinedtreewidget.py` become a `Row` structure
  with a column-label keyed text map and a column-index keyed display
  map; Python's stable `sorted` becomes `List.insertionSort` with the
  corresponding total preorder (CPython's sort is stable, and
  `reverse=True` reverses comparisons while keeping ties in input
  order, which is `insertionSort` with the swapped relation).
-/

namespace StudioLibrary

/-- Values stored in per-path records of the JSON database: the claims
only need strings and integers. -/
inductive JVal
  | s (v : String)
  | n (v : Int)
deriving DecidableEq, Repr

/-- A per-path record: a JSON object mapping column labels to values. -/
abbrev Rec := List (String × JVal)

/-- The database: a JSON object mapping normalized paths to records. -/
abbrev DB := List (String × Rec)

/-- Python `d[k]` lookup (first matching key). -/
def alookup {κ β : Type} [DecidableEq κ] (d : List (κ × β)) (k : κ) : Option β :=
  match d with
  | [] => none
  | (k', v) :: rest => if k' = k then some v else alookup rest k

/-- Python `d[k] = v`: replace the value at an existing key in place,
append the pair when the key is absent. -/
def dictSet {κ β : Type} [DecidableEq κ] (d : List (κ × β)) (k : κ) (v : β) : List (κ × β) :=
  match d with
  | [] => [(k, v)]
  | (k', v') :: rest => if k' = k then (k, v) :: rest else (k', v') :: dictSet rest k v

/-- Python `d.update(e)`: assign every key/value pair of `e` into `d`. -/
def dictUpdate {κ β : Type} [DecidableEq κ] (d e : List (κ × β)) : List (κ × β) :=
  e.foldl (fun acc kv => dictSet acc kv.1 kv.2) d

/-- Python `d.setdefault(k, v)`: insert `k ↦ v` only when `k` is absent. -/
def dictSetdefault {κ β : Type} [DecidableEq κ] (d : List (κ × β)) (k : κ) (v : β) :
    List (κ × β) :=
  if (alookup d k).isSome then d else d ++ [(k, v)]

/-- Mutate the value stored at key `k` in place (used for Python code of
the shape `d[k].setdefault(...)`, which mutates the nested object). -/
def dictModify {κ β : Type} [DecidableEq κ] (d : List (κ × β)) (k : κ) (f : β → β) :
    List (κ × β) :=
  d.map (fun kv => if kv.1 = k then (kv.1, f kv.2) else kv)

/-- Modelled from the spec: `studiolibrary.normPaths`/`normPath` is not
under `src/`; per the data-model section, path keys are "always
normalized (backslashes converted to forward slashes)". -/
def normPath (p : String) : String :=
  ⟨p.data.map (fun c => if c = '\\' then '/' else c)⟩

/-- Embedding of `cmds.updateJson` (src/cmds.py:457-467) acting on the
parsed content of the JSON file: `data_ = readJson(path)` is the `db`
argument, then `data_.update(data)` merges at the top level only, and
`saveJson` writes the result back. -/
def updateJson (db data : DB) : DB :=
  dictUpdate db data

/-- Embedding of `LibraryModel.updatePaths` (src/librarymodel.py:353-370)
acting on the read database: for each normalized path, the existing
record is merged with `data` (`data_[path].update(data)`), and an absent
path is assigned the record `data` itself. -/
def updatePaths (db : DB) (paths : List String) (data : Rec) : DB :=
  (paths.map normPath).foldl
    (fun acc p =>
      match alookup acc p with
      | some r => dictSet acc p (dictUpdate r data)
      | none => dictSet acc p data)
    db

/-- Embedding of `LibraryModel.addPaths` (src/librarymodel.py:342-351):
`data = data or {}` then `updatePaths`. -/
def addPaths (db : DB) (paths : List String) (data : Option Rec) : DB :=
  updatePaths db paths (match data with | some (kv :: rest) => kv :: rest | _ => [])

/-- Modelled from the spec: `studiolibrary.LibraryItem` is not under
`src/`; per the data-model section an item carries `path` and "a mapping
from column-label to display value". -/
structure LItem where
  path : String
  texts : List (String × String)
deriving DecidableEq, Repr

/-- Modelled from the spec: `item.text(column)` returns the item's
display value for the column label. -/
def LItem.text (it : LItem) (column : String) : String :=
  (alookup it.texts column).getD ""

/-- Embedding of the `data` dictionary built by
`LibraryModel.saveItemData` (src/librarymodel.py:300-318): for each item
`data.setdefault(path, {})`, then for each requested column
`data[path].setdefault(column, item.text(column))`. -/
def buildSaveData (items : List LItem) (columns : List String) : DB :=
  items.foldl
    (fun data it =>
      columns.foldl
        (fun data c =>
          dictModify data it.path (fun r => dictSetdefault r c (JVal.s (it.text c))))
        (dictSetdefault data it.path []))
    []

/-- Embedding of `LibraryModel.saveItemData` (src/librarymodel.py:300-318)
acting on the parsed database content: `columns = columns or
["Custom Order"]`, build the fresh `data` dictionary, then
`updateJson(databasePath, data)`. -/
def saveItemData (db : DB) (items : List LItem) (columns : Option (List String)) : DB :=
  let cols := match columns with
    | some (c :: cs) => c :: cs
    | _ => ["Custom Order"]
  updateJson db (buildSaveData items cols)

/-- Embedding of the database effect of `LibraryModel.copyPath`
(src/librarymodel.py:372-382): the filesystem copy performed by
`cmds.copyPath` (src/cmds.py:340-353) returns `dst` and does not touch
the database; the database effect is `addPaths([dst])`. -/
def copyPathDB (db : DB) (dst : String) : DB :=
  addPaths db [dst] none

/-- Embedding of the database effect of `LibraryModel.copyItems`
(src/librarymodel.py:238-252): each item is copied to `dst` and the new
path is registered via `copyPath`. -/
def copyItems (db : DB) (itemPaths : List String) (dst : String) : DB :=
  itemPaths.foldl (fun acc _ => copyPathDB acc dst) db

/-- Combined state of a `LibraryModel` instance and of the world it
observes: `snap` is `self._mtime`, `mem` is `self._data`, `disk` is the
content and modification time of `database.json` (`none` when the file
is missing), `clock` supplies a fresh, strictly larger modification time
for each save, `exs` is the set of paths existing on the filesystem and
`found` the paths of the items `studiolibrary.findItems` discovers. -/
structure SyncWorld where
  snap : Option Nat
  mem : DB
  disk : Option (DB × Nat)
  clock : Nat
  exs : List String
  found : List String
deriving DecidableEq, Repr

/-- Embedding of `LibraryModel.mtime` (src/librarymodel.py:123-135):
the file's modification time, or `None` when the file does not exist. -/
def SyncWorld.mtime (w : SyncWorld) : Option Nat :=
  w.disk.map (fun dm => dm.2)

/-- Embedding of `LibraryModel.isDirty` (src/librarymodel.py:148-154):
`self._mtime != self.mtime()`. -/
def SyncWorld.isDirty (w : SyncWorld) : Bool :=
  decide (w.snap ≠ w.mtime)

/-- Embedding of `cmds.readJson` (src/cmds.py:488-508): a missing (or
unparsable) file yields the empty database. -/
def readJsonW (disk : Option (DB × Nat)) : DB :=
  match disk with
  | some dm => dm.1
  | none => []

/-- Embedding of `LibraryModel.read` (src/librarymodel.py:156-166): when
dirty, reload `self._data` from disk and record the current modification
time (`setDirty(False)`); otherwise return the in-memory snapshot. -/
def SyncWorld.read (w : SyncWorld) : DB × SyncWorld :=
  if w.isDirty then (readJsonW w.disk, { w with mem := readJsonW w.disk, snap := w.mtime })
  else (w.mem, w)

/-- Embedding of `LibraryModel.save` via `cmds.saveJson`
(src/librarymodel.py:168-175, src/cmds.py:470-485): the file is
rewritten, acquiring a fresh modification time; the snapshot timestamp
is not updated by a save. -/
def SyncWorld.save (w : SyncWorld) (d : DB) : SyncWorld :=
  { w with disk := some (d, w.clock), clock := w.clock + 1 }

/-- Embedding of the insertion loop of `LibraryModel.sync`
(src/librarymodel.py:192-198): each discovered path absent from the
database is added with an empty record and the local dirty flag set. -/
def syncInsert : List String → DB × Bool → DB × Bool
  | [], st => st
  | p :: ps, (d, ch) =>
    if (alookup d p).isSome then syncInsert ps (d, ch)
    else syncInsert ps (d ++ [(p, [])], true)

/-- Embedding of the data reconciliation of `LibraryModel.sync`
(src/librarymodel.py:177-198): delete every record whose path no longer
exists, then insert an empty record for every discovered path without
one; the boolean reports whether anything changed. -/
def syncData (exs found : List String) (data0 : DB) : DB × Bool :=
  let delDirty := data0.any (fun kv => decide (kv.1 ∉ exs))
  let data1 := data0.filter (fun kv => decide (kv.1 ∈ exs))
  syncInsert found (data1, delDirty)

/-- Embedding of `LibraryModel.sync` (src/librarymodel.py:177-202): read,
reconcile, and — only when something changed — save and emit the
`dataChanged` notification (the returned boolean). -/
def SyncWorld.sync (w : SyncWorld) : SyncWorld × Bool :=
  let r := w.read
  let d := syncData r.2.exs r.2.found r.1
  let w2 := { r.2 with mem := d.1 }
  if d.2 then (w2.save d.1, true) else (w2, false)

/-- Decimal digit characters of `n`, most significant first, computed
with the fuel pattern of core's `Nat.toDigits`; models Python `str` on a
non-negative integer. -/
def toDecCore : Nat → Nat → List Char → List Char
  | 0, _, acc => acc
  | fuel + 1, n, acc =>
    if n / 10 = 0 then Nat.digitChar (n % 10) :: acc
    else toDecCore fuel (n / 10) (Nat.digitChar (n % 10) :: acc)

/-- Decimal digits of `n`, most significant first. -/
def toDec (n : Nat) : List Char :=
  toDecCore (n + 1) n []

/-- Embedding of Python `str(n)` for a natural number. -/
def natRepr (n : Nat) : String :=
  ⟨toDec n⟩

/-- Embedding of Python `str.zfill(width)`: pad on the left with `'0'`
up to `width` (no sign handling is needed for the natural numbers the
code formats). -/
def zfill (width : Nat) (s : String) : String :=
  if width ≤ s.data.length then s
  else ⟨List.replicate (width - s.data.length) '0' ++ s.data⟩

/-- Drop trailing occurrences of `c` (Python `str.rstrip` for a single
character). -/
def dropTrailing (c : Char) (l : List Char) : List Char :=
  (l.reverse.dropWhile (fun x => x = c)).reverse

/-- Embedding of posix `os.path.dirname`: everything up to the last
slash; a head consisting only of slashes is kept as is, otherwise its
trailing slashes are stripped; a path without slash has dirname "". -/
def pyDirname (p : String) : String :=
  let l := p.data
  let base := (l.reverse.takeWhile (fun c => c ≠ '/')).reverse
  if base.length = l.length then ""
  else
    let head := l.take (l.length - base.length)
    if head.all (fun c => c = '/') then ⟨head⟩ else ⟨dropTrailing '/' head⟩

/-- Embedding of posix `os.path.basename`: everything after the last
slash. -/
def pyBasename (p : String) : String :=
  ⟨(p.data.reverse.takeWhile (fun c => c ≠ '/')).reverse⟩

/-- Boolean list-prefix test. -/
def isPrefixB : List Char → List Char → Bool
  | [], _ => true
  | _ :: _, [] => false
  | a :: as, b :: bs => a = b && isPrefixB as bs

/-- Boolean substring test on character lists. -/
def containsSub (pat : List Char) : List Char → Bool
  | [] => isPrefixB pat []
  | c :: rest => isPrefixB pat (c :: rest) || containsSub pat rest

/-- Embedding of Python `sub in s` on strings. -/
def strContains (s sub : String) : Bool :=
  containsSub sub.data s.data

/-- Embedding of posix `os.path.splitext`: split off the extension at
the last dot of the basename, unless every character of the basename
before that dot is itself a dot (leading dots carry no extension). -/
def pySplitext (p : String) : String × String :=
  let l := p.data
  let base := (l.reverse.takeWhile (fun c => c ≠ '/')).reverse
  let afterDot := base.reverse.takeWhile (fun c => c ≠ '.')
  if afterDot.length = base.length then (p, "")
  else
    let pre := base.take (base.length - afterDot.length - 1)
    if pre.any (fun c => c ≠ '.') then
      (⟨l.take (l.length - afterDot.length - 1)⟩, ⟨'.' :: afterDot.reverse⟩)
    else (p, "")

/-- Embedding of `cmds.splitPath` (src/cmds.py:539-546): normalize
backslashes, split off the extension, and return dirname, bare name and
extension. -/
def splitPath (path : String) : String × String × String :=
  let path := normPath path
  let fe := pySplitext path
  (pyDirname fe.1, pyBasename fe.1, fe.2)

/-- Distinct rename failures raised by `cmds.renamePath`
(src/cmds.py:391-437); each carries the path its message reports. -/
inductive RenameErr
  | samePath (src : String)
  | existsErr (dst : String)
  | dirnameMissing (dirname : String)
  | srcMissing (src : String)
deriving DecidableEq, Repr

/-- Destination path computed by `cmds.renamePath` (src/cmds.py:401-410):
normalize slashes, place a bare name alongside the source, and append
the extension when given and not already contained (Python
`extension and extension not in dst`; an empty extension is falsy). -/
def resolveDst (src dst : String) (extension : Option String) : String :=
  let src := normPath src
  let dst := normPath dst
  let dirname := pyDirname src
  let dst := if strContains dst "/" then dst else dirname ++ "/" ++ dst
  match extension with
  | some ext => if ext ≠ "" ∧ strContains dst ext = false then dst ++ ext else dst
  | none => dst

/-- Embedding of `cmds.renamePath` (src/cmds.py:391-437) over an
explicit filesystem (the list of existing paths). Checks run in source
order: same-path without force, destination exists without force,
missing source parent directory; then — with force and a missing
destination parent — `os.mkdir` mutates the filesystem, and only then
the missing-source check runs; finally `os.rename`. The returned
filesystem reflects all mutations performed before a raise. -/
def renamePath (fs : List String) (src dst : String) (extension : Option String)
    (force : Bool) : List String × Except RenameErr String :=
  let src' := normPath src
  let dst' := resolveDst src dst extension
  let dirname := pyDirname src'
  if src' = dst' ∧ force = false then (fs, .error (.samePath src'))
  else if dst' ∈ fs ∧ force = false then (fs, .error (.existsErr dst'))
  else if dirname ∉ fs then (fs, .error (.dirnameMissing dirname))
  else
    let fs2 := if pyDirname dst' ∉ fs ∧ force = true then pyDirname dst' :: fs else fs
    if src' ∉ fs2 then (fs2, .error (.srcMissing src'))
    else (dst' :: fs2.erase src', .ok dst')

/-- Loop of `cmds.generateUniquePath` (src/cmds.py:511-536): while the
candidate exists, bump the attempt counter, build the next candidate
`dirname/name (number)extension`, and raise once the counter reaches the
attempt bound. -/
def genLoop (exs : List String) (dirname name extension : String) (attempts : Nat)
    (attempt : Nat) (path : String) : Except String String :=
  if path ∈ exs then
    let a' := attempt + 1
    let path' := dirname ++ "/" ++ name ++ " (" ++ natRepr a' ++ ")" ++ extension
    if h : attempts ≤ a' then .error ("Cannot generate unique name for path " ++ path')
    else genLoop exs dirname name extension attempts a' path'
  else .ok path
termination_by attempts - attempt
decreasing_by omega

/-- Embedding of `cmds.generateUniquePath` (src/cmds.py:511-536) over an
explicit filesystem. -/
def generateUniquePath (exs : List String) (path : String) (attempts : Nat) :
    Except String String :=
  let parts := splitPath path
  genLoop exs parts.1 parts.2.1 parts.2.2 attempts 1 path

/-- A row of `CombinedTreeWidget`: `rid` models Python object identity,
`texts` the per-column-label text (`item.text(label)`), `displays` the
per-column-index displayed text (`item.displayText(column)`, which may
differ from the raw text). The item class itself lives outside `src/`;
per the spec an item carries a mapping from column label to display
value. -/
structure Row where
  rid : Nat
  texts : List (String × String)
  displays : List (Int × String)
deriving DecidableEq, Repr

/-- Text of a row at a column label (`item.text`). -/
def Row.text (r : Row) (label : String) : String :=
  (alookup r.texts label).getD ""

/-- Embedding of `item.setText(label, value)`. -/
def Row.setText (r : Row) (label v : String) : Row :=
  { r with texts := dictSet r.texts label v }

/-- Displayed text of a row at a column index (`item.displayText`). -/
def Row.displayText (r : Row) (column : Int) : String :=
  (alookup r.displays column).getD ""

/-- An entry of the widget's row collection: a real row or a synthetic
group-header row (`CombinedWidgetItemGroup`). -/
inductive Entry
  | row (r : Row)
  | group (text : String)
deriving DecidableEq, Repr

/-- Check for a synthetic group-header entry. -/
def Entry.isHeader : Entry → Bool
  | .row _ => false
  | .group _ => true

/-- Embedding of `CombinedTreeWidget.items()`
(src/.../combinedtreewidget.py:230-242): all entries that are not group
items. -/
def rowsOf (entries : List Entry) : List Row :=
  entries.filterMap (fun e => match e with | .row r => some r | .group _ => none)

/-- Qt sort order (`QtCore.Qt.AscendingOrder` / `DescendingOrder`). -/
inductive SOrder
  | asc
  | desc
deriving DecidableEq, Repr

/-- Embedding of Python `str.lower()` (the sort keys the claims exercise
are ASCII). -/
def pyLower (s : String) : String :=
  ⟨s.data.map Char.toLower⟩

/-- Embedding of `CombinedTreeWidget.labelFromColumn`
(src/.../combinedtreewidget.py:335-343): `headerItem().text(column)`,
which is `""` out of range. -/
def labelFromColumn (labels : List String) (c : Int) : String :=
  if c < 0 then "" else labels.getD c.toNat ""

/-- Embedding of `CombinedTreeWidget.columnFromLabel`
(src/.../combinedtreewidget.py:394-407): the index of the label, `-1`
when absent. -/
def columnFromLabel (labels : List String) (label : String) : Int :=
  match labels.indexOf? label with
  | some i => (i : Int)
  | none => -1

/-- Lexicographic strict comparison of character lists by code point. -/
def lexLt : List Char → List Char → Bool
  | [], [] => false
  | [], _ :: _ => true
  | _ :: _, [] => false
  | a :: as, b :: bs => if a < b then true else if b < a then false else lexLt as bs

/-- Embedding of Python `s < t` on strings: lexicographic comparison by
code point. -/
def pyStrLt (s t : String) : Bool :=
  lexLt s.data t.data

/-- Embedding of Python `s <= t` on strings (the order is total, so
`s <= t` is `not (t < s)`). -/
def pyStrLe (s t : String) : Bool :=
  !(pyStrLt t s)

/-- Embedding of Python's stable `sorted(items, key=…, reverse=…)`:
CPython's sort is stable, and `reverse=True` reverses comparisons while
keeping equal keys in input order, which is exactly `insertionSort`
with the corresponding total preorder on keys. -/
def pySorted (key : Row → String) (rev : Bool) (items : List Row) : List Row :=
  if rev then List.insertionSort (fun a b => pyStrLe (key b) (key a) = true) items
  else List.insertionSort (fun a b => pyStrLe (key a) (key b) = true) items

/-- Header-insertion loop of `CombinedTreeWidget.groupByColumn`
(src/.../combinedtreewidget.py:870-889): starting from
`currentGroupText = ""`, a group item is created whenever the displayed
group text differs from the previous one. -/
def addHeaders (groupColumn : Int) : String → List Row → List Entry
  | _, [] => []
  | cur, r :: rest =>
    let gt := r.displayText groupColumn
    if gt ≠ cur then .group gt :: .row r :: addHeaders groupColumn gt rest
    else .row r :: addHeaders groupColumn gt rest

/-- Embedding of `CombinedTreeWidget.groupByColumn`
(src/.../combinedtreewidget.py:846-894): when a group column is set
(Python truthiness: column index `0` or `None` disables grouping), the
rows are stably sorted by the lowercased group-column text and a header
is inserted before each change of displayed group text; otherwise the
rows pass through unchanged. -/
def groupByColumn (labels : List String) (groupColumn : Option Int)
    (groupOrder : Option SOrder) (curGroupOrder : SOrder) (items : List Row) : List Entry :=
  let go := groupOrder.getD curGroupOrder
  match groupColumn with
  | none => items.map Entry.row
  | some c =>
    if c = 0 then items.map Entry.row
    else
      let groupLabel := labelFromColumn labels c
      let sorted := pySorted (fun r => pyLower (r.text groupLabel)) (decide (go = SOrder.desc)) items
      addHeaders c "" sorted

/-- Embedding of `CombinedTreeWidget.sortByColumn`
(src/.../combinedtreewidget.py:810-844): resolve the sort column
(`if not sortColumn: sortColumn = 0`), force ascending order for the
"Custom Order" column, stably sort the rows by the lowercased text of
the sort column (reversed for descending), then run the grouping
pass. -/
def sortByColumn (labels : List String) (sortColumn : Option Int) (sortOrder : SOrder)
    (groupColumn : Option Int) (groupOrder : Option SOrder) (curGroupOrder : SOrder)
    (items : List Row) : List Entry :=
  let sc : Int := sortColumn.getD 0
  let sortColumnLabel := labelFromColumn labels sc
  let order := if sortColumnLabel = "Custom Order" ∧ sortOrder ≠ SOrder.asc
    then SOrder.asc else sortOrder
  let sorted := pySorted (fun item => pyLower (item.text sortColumnLabel))
    (decide (order = SOrder.desc)) items
  groupByColumn labels groupColumn groupOrder curGroupOrder sorted

/-- Count of boundaries in a text sequence, each position counting when
its text differs from the previous one (`cur` seeds the comparison). -/
def changesFrom (cur : String) : List String → Nat
  | [] => 0
  | x :: xs => (if x ≠ cur then 1 else 0) + changesFrom x xs

/-- Number of maximal contiguous runs of equal texts. -/
def runsCount : List String → Nat
  | [] => 0
  | x :: xs => 1 + changesFrom x xs

/-- Exactly-`w`-digit decimal representation of `n` (most significant
first, leading zeros included); the mathematical reference the padded
`str(n).zfill(w)` strings are compared against. -/
def digs : Nat → Nat → List Char
  | 0, _ => []
  | w + 1, n => Nat.digitChar (n / 10 ^ w) :: digs w (n % 10 ^ w)

/-- Rank string assigned by `setItemsCustomOrder`: `str(row).zfill(5)`. -/
def rank (n : Nat) : String :=
  zfill 5 (natRepr n)

/-- Embedding of `CombinedTreeWidget.setItemsCustomOrder`
(src/.../combinedtreewidget.py:486-494): assign `str(row).zfill(5)` to
the "Custom Order" column of each item in list order, starting at 1. -/
def setItemsCustomOrder : List Row → Nat → List Row
  | [], _ => []
  | r :: rest, n =>
    r.setText "Custom Order" (zfill 5 (natRepr n)) :: setItemsCustomOrder rest (n + 1)

/-- Python `list.insert(i, a)`: insert at index `i`, clamped to the end
of the list. -/
def pyInsert {α : Type} : List α → Nat → α → List α
  | l, 0, a => a :: l
  | [], _ + 1, a => [a]
  | b :: bs, n + 1, a => b :: pyInsert bs n a

/-- Embedding of `CombinedTreeWidget.itemsCustomOrder`
(src/.../combinedtreewidget.py:515-524): the rows sorted stably by their
raw "Custom Order" text. -/
def itemsCustomOrder (items : List Row) : List Row :=
  List.insertionSort
    (fun a b => pyStrLe (a.text "Custom Order") (b.text "Custom Order") = true) items

/-- Embedding of `CombinedTreeWidget.moveItems`
(src/.../combinedtreewidget.py:526-555): compute the canonical custom
order, take the insertion row as the target's index in that order
(before any removal), pop each moved item, insert every popped item back
at that same row index (`list.insert`), reassign the zero-padded
sequential custom-order values, then re-sort by the custom-order column.
After `setItemsCustomOrder` the widget's item collection holds exactly
the relabeled rows, which is what the final sort receives. -/
def moveItems (labels : List String) (widget : List Row) (sel : List Row)
    (itemAt : Option Row) (groupColumn : Option Int) (groupOrder : SOrder) : List Entry :=
  let column := columnFromLabel labels "Custom Order"
  let ordered := itemsCustomOrder widget
  let row := match itemAt with
    | some t => ordered.indexOf t
    | none => 0
  let remaining := sel.foldl List.erase ordered
  let reinserted := sel.foldl (fun acc s => pyInsert acc row s) remaining
  let relabeled := setItemsCustomOrder reinserted 1
  sortByColumn labels (some column) SOrder.asc groupColumn (some groupOrder) groupOrder relabeled

theorem alookup_dictSet_self {κ β : Type} [DecidableEq κ] (d : List (κ × β)) (k : κ) (v : β) :
    alookup (dictSet d k v) k = some v := by
  induction d with
  | nil => simp [dictSet, alookup]
  | cons kv rest ih =>
    by_cases h : kv.1 = k
    · simp [dictSet, alookup, h]
    · simp [dictSet, alookup, h, ih]

theorem alookup_dictSet_ne {κ β : Type} [DecidableEq κ] (d : List (κ × β)) (k q : κ) (v : β)
    (h : q ≠ k) : alookup (dictSet d k v) q = alookup d q := by
  have hkq : k ≠ q := Ne.symm h
  induction d with
  | nil => simp [dictSet, alookup, hkq]
  | cons kv rest ih =>
    by_cases hk : kv.1 = k
    · subst hk
      simp [dictSet, alookup, hkq, Ne.symm h]
    · by_cases hq : kv.1 = q
      · simp [dictSet, alookup, hk, hq, h]
      · simp [dictSet, alookup, hk, hq, ih]

/-- C1, counterexample: the store-level `updateJson` applied twice to the
same path key replaces the record wholesale: the first partial record
`{"a": 1}` is lost, the result is `{p: {"b": 2}}`, not the merged
`{p: {"a": 1, "b": 2}}`. -/
theorem updateJson_replaces_record_counterexample :
    updateJson (updateJson [] [("/lib/x.pose", [("a", JVal.n 1)])])
        [("/lib/x.pose", [("b", JVal.n 2)])]
      = [("/lib/x.pose", [("b", JVal.n 2)])] ∧
    [("/lib/x.pose", [("b", JVal.n 2)])]
      ≠ [(("/lib/x.pose" : String), [("a", JVal.n 1), ("b", JVal.n 2)])] := by
  constructor
  · rfl
  · decide

/-- C1, amended: the record-level shallow merge holds for
`LibraryModel.updatePaths`, not for `updateJson`: updating a fresh
normalized path `p` first with record `{k₁: v₁}` and then with
`{k₂: v₂}` (distinct keys) leaves the merged record `{k₁: v₁, k₂: v₂}`
at `p`; `updateJson` itself merges only at the top level of the mapping
and replaces each present path's record wholesale. -/
theorem updatePaths_single (db : DB) (p : String) (data : Rec) (hnorm : normPath p = p) :
    updatePaths db [p] data =
      match alookup db p with
      | some r => dictSet db p (dictUpdate r data)
      | none => dictSet db p data := by
  simp [updatePaths, hnorm]

theorem updatePaths_merges_record (db : DB) (p : String) (k₁ k₂ : String) (v₁ v₂ : JVal)
    (hnorm : normPath p = p) (hfresh : alookup db p = none) (hk : k₁ ≠ k₂) :
    alookup (updatePaths (updatePaths db [p] [(k₁, v₁)]) [p] [(k₂, v₂)]) p
      = some [(k₁, v₁), (k₂, v₂)] := by
  have h3 : dictUpdate [(k₁, v₁)] [(k₂, v₂)] = [(k₁, v₁), (k₂, v₂)] := by
    simp [dictUpdate, dictSet, hk]
  have e1 : updatePaths db [p] [(k₁, v₁)] = dictSet db p [(k₁, v₁)] := by
    rw [updatePaths_single db p _ hnorm, hfresh]
  have e2 : updatePaths (dictSet db p [(k₁, v₁)]) [p] [(k₂, v₂)]
      = dictSet (dictSet db p [(k₁, v₁)]) p [(k₁, v₁), (k₂, v₂)] := by
    rw [updatePaths_single _ p _ hnorm, alookup_dictSet_self]
    show dictSet (dictSet db p [(k₁, v₁)]) p (dictUpdate [(k₁, v₁)] [(k₂, v₂)]) = _
    rw [h3]
  rw [e1, e2, alookup_dictSet_self]

/-- Witness for `updatePaths_merges_record` at a concrete input. -/
theorem updatePaths_merges_record_witness :
    alookup (updatePaths (updatePaths [] ["/lib/x.pose"] [("a", JVal.n 1)])
        ["/lib/x.pose"] [("b", JVal.n 2)]) "/lib/x.pose"
      = some [("a", JVal.n 1), ("b", JVal.n 2)] :=
  updatePaths_merges_record [] "/lib/x.pose" "a" "b" (JVal.n 1) (JVal.n 2)
    (by decide) (by decide) (by decide)

/-- C5, counterexample: `saveItemData` is not first-write-wins against
the persisted record. A first call persists `"00001"` for
"Custom Order"; after the item's text changes to `"00002"`, a second
call replaces the persisted record wholesale (because `updateJson`
merges only at the top level), so the earlier value is overwritten. -/
theorem saveItemData_overwrites_counterexample :
    saveItemData
        (saveItemData [] [⟨"/lib/x.pose", [("Custom Order", "00001")]⟩] none)
        [⟨"/lib/x.pose", [("Custom Order", "00002")]⟩] none
      = [("/lib/x.pose", [("Custom Order", JVal.s "00002")])] ∧
    [("/lib/x.pose", [("Custom Order", JVal.s "00002")])]
      ≠ [(("/lib/x.pose" : String), [("Custom Order", JVal.s "00001")])] := by
  constructor
  · rfl
  · decide

/-- C5, amended: first-write-wins holds only within a single call: when
two items in one `saveItemData` call share a path, the first item's
current text is recorded and the second does not overwrite it; but the
path's persisted record is replaced wholesale by the freshly built
record, independently of whatever the database held before the call. -/
theorem saveItemData_first_write_within_call (db : DB) (it1 it2 : LItem)
    (hpath : it2.path = it1.path) :
    alookup (saveItemData db [it1, it2] none) it1.path
      = some [("Custom Order", JVal.s (it1.text "Custom Order"))] := by
  have hbuild : buildSaveData [it1, it2] ["Custom Order"]
      = [(it1.path, [("Custom Order", JVal.s (it1.text "Custom Order"))])] := by
    simp [buildSaveData, dictSetdefault, dictModify, alookup, hpath, LItem.text]
  simp only [saveItemData, updateJson, hbuild, dictUpdate, List.foldl]
  exact alookup_dictSet_self db it1.path _

/-- Witness for `saveItemData_first_write_within_call` at a concrete
input: the first item's text `"00001"` wins over the second item's
`"00002"` inside one call. -/
theorem saveItemData_first_write_within_call_witness :
    alookup
        (saveItemData [("/other", [])]
          [⟨"/lib/x.pose", [("Custom Order", "00001")]⟩,
           ⟨"/lib/x.pose", [("Custom Order", "00002")]⟩] none)
        "/lib/x.pose"
      = some [("Custom Order", JVal.s "00001")] :=
  saveItemData_first_write_within_call [("/other", [])]
    ⟨"/lib/x.pose", [("Custom Order", "00001")]⟩
    ⟨"/lib/x.pose", [("Custom Order", "00002")]⟩ (by decide)

/-- C10, counterexample: when the destination path already has a
persisted record, `copyItems` leaves that record unchanged instead of
mapping the new path to the empty record `{}`. -/
theorem copyItems_existing_record_counterexample :
    alookup
        (copyItems
          [("/lib/a.pose", [("tags", JVal.s "hero")]), ("/dst/a.pose", [("x", JVal.n 1)])]
          ["/lib/a.pose"] "/dst/a.pose")
        "/dst/a.pose"
      = some [("x", JVal.n 1)] ∧
    some [("x", JVal.n 1)] ≠ some ([] : Rec) := by
  constructor
  · rfl
  · decide

/-- C10, amended: copying one item to `dst` maps `dst` to the empty
record when `dst` had no record yet (no source column values are carried
over); a pre-existing record at `dst` is left unchanged; and the record
of every other path — the source's included — is untouched. -/
theorem copyItems_database_effect (db : DB) (src dst : String)
    (hnorm : normPath dst = dst) :
    (alookup db dst = none → alookup (copyItems db [src] dst) dst = some []) ∧
    (∀ r, alookup db dst = some r → alookup (copyItems db [src] dst) dst = some r) ∧
    (∀ q, q ≠ dst → alookup (copyItems db [src] dst) q = alookup db q) := by
  have hcopy : copyItems db [src] dst = updatePaths db [dst] [] := rfl
  rw [hcopy, updatePaths_single db dst [] hnorm]
  refine ⟨fun h => ?_, fun r h => ?_, fun q hq => ?_⟩
  · rw [h]
    exact alookup_dictSet_self db dst []
  · rw [h]
    show alookup (dictSet db dst (dictUpdate r [])) dst = some r
    exact alookup_dictSet_self db dst r
  · cases h : alookup db dst with
    | none => exact alookup_dictSet_ne db dst q [] hq
    | some r => exact alookup_dictSet_ne db dst q (dictUpdate r []) hq

/-- Witness for `copyItems_database_effect` at a concrete input: a fresh
destination gets the empty record and the source record is untouched. -/
theorem copyItems_database_effect_witness :
    alookup
        (copyItems [("/lib/a.pose", [("tags", JVal.s "hero")])] ["/lib/a.pose"] "/dst/a.pose")
        "/dst/a.pose"
      = some [] ∧
    alookup
        (copyItems [("/lib/a.pose", [("tags", JVal.s "hero")])] ["/lib/a.pose"] "/dst/a.pose")
        "/lib/a.pose"
      = some [("tags", JVal.s "hero")] :=
  ⟨(copyItems_database_effect [("/lib/a.pose", [("tags", JVal.s "hero")])]
      "/lib/a.pose" "/dst/a.pose" (by decide)).1 (by decide),
   (copyItems_database_effect [("/lib/a.pose", [("tags", JVal.s "hero")])]
      "/lib/a.pose" "/dst/a.pose" (by decide)).2.2 "/lib/a.pose" (by decide)⟩

/-- C6, counterexample: with the snapshot timestamp `none` (as after
construction) and the database file missing on disk, `isDirty` compares
`None != None` and reports clean, and `read` returns the in-memory data
without reloading — the claim's "including when the file does not
exist" case fails. -/
theorem isDirty_none_missing_file_counterexample :
    SyncWorld.isDirty ⟨none, [("/lib/x.pose", [])], none, 0, [], []⟩ = false ∧
    SyncWorld.read ⟨none, [("/lib/x.pose", [])], none, 0, [], []⟩
      = ([("/lib/x.pose", [])], ⟨none, [("/lib/x.pose", [])], none, 0, [], []⟩) := by
  constructor
  · rfl
  · rfl

/-- C6, amended: with the snapshot timestamp `none`, the model is dirty
exactly when the database file exists on disk: if the file exists the
next `read` reloads its content from disk, but if the file is missing
the model counts as clean and `read` returns the in-memory data without
reloading. -/
theorem isDirty_none_iff_file_exists (w : SyncWorld) (h : w.snap = none) :
    (w.isDirty = w.disk.isSome) ∧
    (w.disk = none → w.read = (w.mem, w)) ∧
    (∀ d m, w.disk = some (d, m) → w.isDirty = true ∧ (w.read).1 = d) := by
  refine ⟨?_, fun hd => ?_, fun d m hd => ?_⟩
  · cases hd : w.disk with
    | none => simp [SyncWorld.isDirty, SyncWorld.mtime, h, hd]
    | some dm => simp [SyncWorld.isDirty, SyncWorld.mtime, h, hd]
  · simp [SyncWorld.read, SyncWorld.isDirty, SyncWorld.mtime, h, hd]
  · constructor
    · simp [SyncWorld.isDirty, SyncWorld.mtime, h, hd]
    · simp [SyncWorld.read, SyncWorld.isDirty, SyncWorld.mtime, h, hd, readJsonW]

/-- Witness for `isDirty_none_iff_file_exists` at a concrete input. -/
theorem isDirty_none_iff_file_exists_witness :
    SyncWorld.isDirty ⟨none, [], some ([("/lib/x.pose", [])], 7), 8, [], []⟩ = true ∧
    (SyncWorld.read ⟨none, [], some ([("/lib/x.pose", [])], 7), 8, [], []⟩).1
      = [("/lib/x.pose", [])] :=
  (isDirty_none_iff_file_exists ⟨none, [], some ([("/lib/x.pose", [])], 7), 8, [], []⟩
    (by decide)).2.2 [("/lib/x.pose", [])] 7 (by decide)

theorem alookup_append {κ β : Type} [DecidableEq κ] (d e : List (κ × β)) (k : κ) :
    alookup (d ++ e) k =
      match alookup d k with
      | some v => some v
      | none => alookup e k := by
  induction d with
  | nil => rfl
  | cons kv rest ih =>
    by_cases h : kv.1 = k
    · simp [alookup, h]
    · simp [alookup, h, ih]

theorem syncInsert_keys (exs : List String) :
    ∀ (ps : List String) (d : DB) (ch : Bool),
      (∀ kv ∈ d, kv.1 ∈ exs) → (∀ p ∈ ps, p ∈ exs) →
      ∀ kv ∈ (syncInsert ps (d, ch)).1, kv.1 ∈ exs := by
  intro ps
  induction ps with
  | nil => intro d ch hd _ kv hkv; exact hd kv hkv
  | cons p ps ih =>
    intro d ch hd hps kv hkv
    rw [syncInsert] at hkv
    by_cases h : (alookup d p).isSome
    · rw [if_pos h] at hkv
      exact ih d ch hd (fun q hq => hps q (List.mem_cons_of_mem _ hq)) kv hkv
    · rw [if_neg h] at hkv
      refine ih _ true ?_ (fun q hq => hps q (List.mem_cons_of_mem _ hq)) kv hkv
      intro kv2 hkv2
      rcases List.mem_append.mp hkv2 with h2 | h2
      · exact hd kv2 h2
      · have : kv2 = (p, []) := by simpa using h2
        rw [this]
        exact hps p (List.mem_cons_self _ _)

theorem syncInsert_present :
    ∀ (ps : List String) (d : DB) (ch : Bool) (p : String),
      p ∈ ps ∨ (alookup d p).isSome →
      (alookup (syncInsert ps (d, ch)).1 p).isSome := by
  intro ps
  induction ps with
  | nil =>
    intro d ch p hp
    rcases hp with hp | hp
    · exact absurd hp (List.not_mem_nil p)
    · exact hp
  | cons q ps ih =>
    intro d ch p hp
    rw [syncInsert]
    by_cases h : (alookup d q).isSome
    · rw [if_pos h]
      rcases hp with hp | hp
      · rcases List.mem_cons.mp hp with hpq | hpq
        · exact ih d ch p (Or.inr (hpq ▸ h))
        · exact ih d ch p (Or.inl hpq)
      · exact ih d ch p (Or.inr hp)
    · rw [if_neg h]
      have happ : ∀ x : String, (alookup d x).isSome →
          (alookup (d ++ [(q, [])]) x).isSome := by
        intro x hx
        rw [alookup_append]
        cases hl : alookup d x with
        | none => rw [hl] at hx; simp at hx
        | some v => simp
      rcases hp with hp | hp
      · rcases List.mem_cons.mp hp with hpq | hpq
        · refine ih _ true p (Or.inr ?_)
          subst hpq
          rw [alookup_append]
          cases hl : alookup d p with
          | none => simp [alookup]
          | some v => simp
        · exact ih _ true p (Or.inl hpq)
      · exact ih _ true p (Or.inr (happ p hp))

theorem syncInsert_id : ∀ (ps : List String) (d : DB),
    (∀ p ∈ ps, (alookup d p).isSome) → syncInsert ps (d, false) = (d, false) := by
  intro ps
  induction ps with
  | nil => intro d _; rfl
  | cons p ps ih =>
    intro d h
    rw [syncInsert, if_pos (h p (List.mem_cons_self _ _))]
    exact ih d (fun q hq => h q (List.mem_cons_of_mem _ hq))

theorem syncInsert_false : ∀ (ps : List String) (d : DB) (ch : Bool),
    (syncInsert ps (d, ch)).2 = false →
    ch = false ∧ (syncInsert ps (d, ch)).1 = d ∧ ∀ p ∈ ps, (alookup d p).isSome := by
  intro ps
  induction ps with
  | nil =>
    intro d ch h
    exact ⟨h, rfl, by intro p hp; exact absurd hp (List.not_mem_nil p)⟩
  | cons p ps ih =>
    intro d ch h
    rw [syncInsert] at h ⊢
    by_cases hq : (alookup d p).isSome
    · rw [if_pos hq] at h ⊢
      obtain ⟨hch, heq, hall⟩ := ih d ch h
      refine ⟨hch, heq, ?_⟩
      intro q hqm
      rcases List.mem_cons.mp hqm with hqp | hqp
      · exact hqp ▸ hq
      · exact hall q hqp
    · rw [if_neg hq] at h
      obtain ⟨hch, _, _⟩ := ih _ true h
      exact absurd hch (by simp)

theorem syncData_id (exs found : List String) (d : DB)
    (hkeys : ∀ kv ∈ d, kv.1 ∈ exs)
    (hfound : ∀ p ∈ found, (alookup d p).isSome) :
    syncData exs found d = (d, false) := by
  have hany : (d.any fun kv => decide (kv.1 ∉ exs)) = false := by
    rw [List.any_eq_false]
    intro kv hkv
    simpa using hkeys kv hkv
  have hfilter : d.filter (fun kv => decide (kv.1 ∈ exs)) = d := by
    rw [List.filter_eq_self]
    intro kv hkv
    simpa using hkeys kv hkv
  rw [syncData, hany, hfilter]
  exact syncInsert_id found d hfound

theorem syncData_keys (exs found : List String) (d : DB)
    (hfound : ∀ p ∈ found, p ∈ exs) :
    ∀ kv ∈ (syncData exs found d).1, kv.1 ∈ exs := by
  rw [syncData]
  refine syncInsert_keys exs found _ _ ?_ hfound
  intro kv hkv
  have := List.mem_filter.mp hkv
  simpa using this.2

theorem syncData_present (exs found : List String) (d : DB) :
    ∀ p ∈ found, (alookup (syncData exs found d).1 p).isSome := by
  intro p hp
  rw [syncData]
  exact syncInsert_present found _ _ p (Or.inl hp)

theorem read_state (w : SyncWorld) :
    (w.read).2.snap = w.mtime ∧ (w.read).2.mem = (w.read).1 ∧
    (w.read).2.disk = w.disk ∧ (w.read).2.clock = w.clock ∧
    (w.read).2.exs = w.exs ∧ (w.read).2.found = w.found := by
  rw [SyncWorld.read]
  by_cases h : w.isDirty = true
  · simp [h]
  · have hb : w.isDirty = false := by simpa using h
    have heq : w.snap = w.mtime := by
      have := hb
      rw [SyncWorld.isDirty, decide_eq_false_iff_not] at this
      simpa using this
    simp [hb, heq]

/-- C3: `sync` is idempotent with respect to notification. Under the
coherence hypotheses that every discovered item path exists on the
filesystem and that every recorded timestamp is older than the next
fresh modification time, the second of two consecutive `sync` calls
with no intervening filesystem change finds nothing to delete or
insert and emits no `dataChanged` notification. -/
theorem sync_twice_emits_at_most_once (w : SyncWorld)
    (hfound : ∀ p ∈ w.found, p ∈ w.exs)
    (hdisk : w.disk.all (fun dm => decide (dm.2 < w.clock)) = true) :
    ((w.sync).1.sync).2 = false := by
  obtain ⟨h1snap, h1mem, h1disk, h1clock, h1exs, h1found⟩ := read_state w
  have hsync1 : w.sync =
      (if (syncData (w.read).2.exs (w.read).2.found (w.read).1).2 then
        (SyncWorld.save
          { (w.read).2 with mem := (syncData (w.read).2.exs (w.read).2.found (w.read).1).1 }
          (syncData (w.read).2.exs (w.read).2.found (w.read).1).1, true)
      else ({ (w.read).2 with mem := (syncData (w.read).2.exs (w.read).2.found (w.read).1).1 },
        false)) := rfl
  set w1 := (w.read).2 with hw1
  set data0 := (w.read).1 with hdata0
  set d := syncData w1.exs w1.found data0 with hd
  by_cases hch : d.2 = true
  · -- the first sync changed something: it saved, so the second read
    -- reloads exactly the saved data and finds nothing to change
    rw [hsync1, if_pos hch]
    set wB := SyncWorld.save { w1 with mem := d.1 } d.1 with hwB
    have hBdisk : wB.disk = some (d.1, w.clock) := by
      simp [hwB, SyncWorld.save, h1clock]
    have hBsnap : wB.snap = w.mtime := by
      simp [hwB, SyncWorld.save, h1snap]
    have hBmtime : wB.mtime = some w.clock := by
      rw [SyncWorld.mtime, hBdisk]
      rfl
    have hdirty : wB.isDirty = true := by
      rw [SyncWorld.isDirty, hBmtime, hBsnap, decide_eq_true_iff]
      intro hcontra
      cases hm : w.mtime with
      | none => rw [hm] at hcontra; exact Option.noConfusion hcontra
      | some m =>
        rw [hm] at hcontra
        have hmm : m = w.clock := Option.some.injEq _ _ ▸ (by simpa using hcontra)
        rw [SyncWorld.mtime] at hm
        cases hdd : w.disk with
        | none => rw [hdd] at hm; simp at hm
        | some dm =>
          rw [hdd] at hm
          simp at hm
          rw [hdd] at hdisk
          simp [Option.all] at hdisk
          omega
    have hread2 : wB.read = (d.1, { wB with mem := d.1, snap := wB.mtime }) := by
      rw [SyncWorld.read, if_pos hdirty, hBdisk]
      rfl
    show ((wB.sync)).2 = false
    rw [SyncWorld.sync]
    have hexs2 : (wB.read).2.exs = w.exs := by rw [hread2]; simp [hwB, SyncWorld.save, h1exs]
    have hfound2 : (wB.read).2.found = w.found := by
      rw [hread2]; simp [hwB, SyncWorld.save, h1found]
    have hfst2 : (wB.read).1 = d.1 := by rw [hread2]
    rw [hexs2, hfound2, hfst2]
    have hkeys : ∀ kv ∈ d.1, kv.1 ∈ w.exs := by
      rw [hd]
      rw [h1exs, h1found]
      exact syncData_keys w.exs w.found data0 hfound
    have hpres : ∀ p ∈ w.found, (alookup d.1 p).isSome := by
      rw [hd, h1exs, h1found]
      exact syncData_present w.exs w.found data0
    rw [syncData_id w.exs w.found d.1 hkeys hpres]
    rfl
  · -- the first sync changed nothing: no save, no reload, and the
    -- reconciliation is a no-op again
    have hch' : d.2 = false := by simpa using hch
    rw [hsync1, if_neg (by rw [hch']; simp)]
    obtain ⟨hdel, hins, hpres⟩ := syncInsert_false w1.found _ _ hch'
    have hfilter : data0.filter (fun kv => decide (kv.1 ∈ w1.exs)) = data0 := by
      rw [List.filter_eq_self]
      intro kv hkv
      have := List.any_eq_false.mp hdel kv hkv
      simpa using this
    have hd1 : d.1 = data0 := by
      rw [hd, syncData]
      rw [hfilter] at hins ⊢
      rw [hdel] at hins ⊢
      exact hins
    set wA := { w1 with mem := d.1 } with hwA
    have hmt : w1.mtime = w.mtime := by
      rw [SyncWorld.mtime, SyncWorld.mtime, h1disk]
    have hAdirty : wA.isDirty = false := by
      rw [SyncWorld.isDirty, decide_eq_false_iff_not]
      show ¬ wA.snap ≠ wA.mtime
      have h1 : wA.snap = w1.snap := rfl
      have h2 : wA.mtime = w1.mtime := rfl
      rw [h1, h2, h1snap, hmt]
      exact fun hne => hne rfl
    have hreadA : wA.read = (wA.mem, wA) := by
      rw [SyncWorld.read, hAdirty]
      rfl
    show ((wA.sync)).2 = false
    rw [SyncWorld.sync]
    have hexs2 : (wA.read).2.exs = w.exs := by rw [hreadA, hwA]; exact h1exs
    have hfound2 : (wA.read).2.found = w.found := by rw [hreadA, hwA]; exact h1found
    have hfst2 : (wA.read).1 = data0 := by rw [hreadA, hwA]; exact hd1
    rw [hexs2, hfound2, hfst2]
    have hkeys : ∀ kv ∈ data0, kv.1 ∈ w.exs := by
      intro kv hkv
      have := List.any_eq_false.mp hdel kv hkv
      rw [h1exs] at this
      simpa using this
    have hpres' : ∀ p ∈ w.found, (alookup data0 p).isSome := by
      rw [hfilter] at hpres
      rw [h1found] at hpres
      exact hpres
    rw [syncData_id w.exs w.found data0 hkeys hpres']
    rfl

/-- Witness for `sync_twice_emits_at_most_once` at a concrete input: a
missing database file with one discovered item; the first `sync`
inserts the item and emits, the second emits nothing. -/
theorem sync_twice_emits_at_most_once_witness :
    ((SyncWorld.sync
        (SyncWorld.sync ⟨none, [], none, 1, ["/lib/x.pose"], ["/lib/x.pose"]⟩).1).2 = false) :=
  sync_twice_emits_at_most_once ⟨none, [], none, 1, ["/lib/x.pose"], ["/lib/x.pose"]⟩
    (by decide) (by decide)

/-- C7, counterexample: with force set, a missing source and a missing
destination parent, `renamePath` creates the destination parent
directory (`os.mkdir`) before raising the missing-source error, so a
filesystem mutation does happen before the error. -/
theorem renamePath_mutates_before_missing_source_counterexample :
    renamePath ["/a"] "/a/b" "/c/d" none true
      = (["/c", "/a"], .error (.srcMissing "/a/b")) ∧
    (["/c", "/a"] : List String) ≠ ["/a"] := by
  constructor
  · rfl
  · decide

/-- C7, amended: each conflict raises its own distinct rename error, in
source order — same-path without force, existing destination without
force, missing source parent directory, missing source — and in the
missing-source case no filesystem mutation is performed provided force
is not set; with force and a missing destination parent, the parent
directory is created before the missing-source error is raised. -/
theorem renamePath_distinct_errors (fs : List String) (src dst : String)
    (extension : Option String) (force : Bool) :
    (normPath src = resolveDst src dst extension ∧ force = false →
      renamePath fs src dst extension force
        = (fs, .error (.samePath (normPath src)))) ∧
    (normPath src ≠ resolveDst src dst extension ∧
        resolveDst src dst extension ∈ fs ∧ force = false →
      renamePath fs src dst extension force
        = (fs, .error (.existsErr (resolveDst src dst extension)))) ∧
    ((normPath src ≠ resolveDst src dst extension ∨ force = true) ∧
        (resolveDst src dst extension ∉ fs ∨ force = true) ∧
        pyDirname (normPath src) ∉ fs →
      renamePath fs src dst extension force
        = (fs, .error (.dirnameMissing (pyDirname (normPath src))))) ∧
    (normPath src ≠ resolveDst src dst extension ∧
        resolveDst src dst extension ∉ fs ∧
        pyDirname (normPath src) ∈ fs ∧ force = false ∧ normPath src ∉ fs →
      renamePath fs src dst extension force
        = (fs, .error (.srcMissing (normPath src)))) := by
  refine ⟨fun h => ?_, fun h => ?_, fun h => ?_, fun h => ?_⟩
  · simp only [renamePath]
    rw [if_pos h]
  · simp only [renamePath]
    rw [if_neg (fun hc => h.1 hc.1), if_pos ⟨h.2.1, h.2.2⟩]
  · simp only [renamePath]
    have hn1 : ¬ (normPath src = resolveDst src dst extension ∧ force = false) := by
      intro hc
      rcases h.1 with hd | hf
      · exact hd hc.1
      · rw [hf] at hc; exact Bool.noConfusion hc.2
    have hn2 : ¬ (resolveDst src dst extension ∈ fs ∧ force = false) := by
      intro hc
      rcases h.2.1 with hd | hf
      · exact hd hc.1
      · rw [hf] at hc; exact Bool.noConfusion hc.2
    rw [if_neg hn1, if_neg hn2, if_pos h.2.2]
  · obtain ⟨hne, hdst, hdir, hforce, hsrc⟩ := h
    simp only [renamePath]
    have hA : ¬ (pyDirname (resolveDst src dst extension) ∉ fs ∧ force = true) := by
      intro hc
      rw [hforce] at hc
      exact Bool.noConfusion hc.2
    rw [if_neg (fun hc => hne hc.1), if_neg (fun hc => hdst hc.1),
      if_neg (not_not_intro hdir), if_neg hA, if_pos hsrc]

/-- Witness for `renamePath_distinct_errors` at concrete inputs: the
same-path case (renaming `/lib/a.anim` onto its own bare name without
force) and the missing-source case without force (no mutation). -/
theorem renamePath_distinct_errors_witness :
    renamePath ["/lib", "/lib/a.anim"] "/lib/a.anim" "a.anim" none false
      = (["/lib", "/lib/a.anim"], .error (.samePath "/lib/a.anim")) ∧
    renamePath ["/lib"] "/lib/a.anim" "b.anim" none false
      = (["/lib"], .error (.srcMissing "/lib/a.anim")) :=
  ⟨(renamePath_distinct_errors ["/lib", "/lib/a.anim"] "/lib/a.anim" "a.anim" none false).1
      ⟨by decide, rfl⟩,
   (renamePath_distinct_errors ["/lib"] "/lib/a.anim" "b.anim" none false).2.2.2
      ⟨by decide, by decide, by decide, rfl, by decide⟩⟩

theorem genLoop_ok (exs : List String) (dirname name extension : String) (attempts : Nat) :
    ∀ (k attempt : Nat) (path p : String), attempts - attempt = k →
      genLoop exs dirname name extension attempts attempt path = .ok p → p ∉ exs := by
  intro k
  induction k using Nat.strong_induction_on with
  | _ k ih =>
    intro attempt path p hk h
    rw [genLoop] at h
    by_cases hmem : path ∈ exs
    · rw [if_pos hmem] at h
      by_cases hge : attempts ≤ attempt + 1
      · rw [dif_pos hge] at h
        exact Except.noConfusion h
      · rw [dif_neg hge] at h
        exact ih (attempts - (attempt + 1)) (by omega) (attempt + 1) _ p rfl h
    · rw [if_neg hmem] at h
      have hp : path = p := by injection h
      rw [← hp]
      exact hmem

/-- C9: `generateUniquePath` always terminates (the embedding is a total
function whose recursion is bounded by the attempt counter): for every
filesystem and input it either returns a path that does not exist, or
returns the explicit "Cannot generate" error. -/
theorem generateUniquePath_terminates (exs : List String) (path : String) (attempts : Nat) :
    (∃ p, generateUniquePath exs path attempts = .ok p ∧ p ∉ exs) ∨
    (∃ msg, generateUniquePath exs path attempts = .error msg) := by
  cases h : generateUniquePath exs path attempts with
  | ok p =>
    left
    refine ⟨p, rfl, ?_⟩
    rw [generateUniquePath] at h
    exact genLoop_ok exs _ _ _ attempts (attempts - 1) 1 path p rfl h
  | error msg =>
    right
    exact ⟨msg, rfl⟩

theorem lexLt_irrefl : ∀ l : List Char, lexLt l l = false
  | [] => rfl
  | a :: as => by
    rw [lexLt, if_neg (lt_irrefl a), if_neg (lt_irrefl a)]
    exact lexLt_irrefl as

theorem lexLt_asymm : ∀ l₁ l₂ : List Char, lexLt l₁ l₂ = true → lexLt l₂ l₁ = false := by
  intro l₁
  induction l₁ with
  | nil =>
    intro l₂ h
    cases l₂ with
    | nil => rfl
    | cons b bs => rfl
  | cons a as ih =>
    intro l₂ h
    cases l₂ with
    | nil => exact absurd h (by rw [lexLt]; exact Bool.noConfusion)
    | cons b bs =>
      rw [lexLt] at h ⊢
      by_cases hab : a < b
      · rw [if_neg (lt_asymm hab), if_pos hab]
      · rw [if_neg hab] at h
        by_cases hba : b < a
        · rw [if_pos hba] at h
          exact absurd h (by decide)
        · rw [if_neg hba] at h
          rw [if_neg hba, if_neg hab]
          exact ih bs h

theorem lexLt_connex : ∀ l₁ l₂ : List Char,
    lexLt l₁ l₂ = false → lexLt l₂ l₁ = false → l₁ = l₂ := by
  intro l₁
  induction l₁ with
  | nil =>
    intro l₂ h1 _
    cases l₂ with
    | nil => rfl
    | cons b bs => exact absurd h1 (by rw [lexLt]; decide)
  | cons a as ih =>
    intro l₂ h1 h2
    cases l₂ with
    | nil => exact absurd h2 (by rw [lexLt]; decide)
    | cons b bs =>
      rw [lexLt] at h1 h2
      by_cases hab : a < b
      · rw [if_pos hab] at h1
        exact absurd h1 (by decide)
      · by_cases hba : b < a
        · rw [if_pos hba] at h2
          exact absurd h2 (by decide)
        · rw [if_neg hab, if_neg hba] at h1
          rw [if_neg hba, if_neg hab] at h2
          have hchar : a = b := by
            rcases lt_trichotomy a b with h | h | h
            · exact absurd h hab
            · exact h
            · exact absurd h hba
          rw [hchar, ih bs h1 h2]

theorem lexLt_trans : ∀ l₁ l₂ l₃ : List Char,
    lexLt l₁ l₂ = true → lexLt l₂ l₃ = true → lexLt l₁ l₃ = true := by
  intro l₁
  induction l₁ with
  | nil =>
    intro l₂ l₃ h1 h2
    cases l₂ with
    | nil => exact absurd h1 (by decide)
    | cons b bs =>
      cases l₃ with
      | nil => exact absurd h2 (by rw [lexLt]; exact Bool.noConfusion)
      | cons c cs => rfl
  | cons a as ih =>
    intro l₂ l₃ h1 h2
    cases l₂ with
    | nil => exact absurd h1 (by rw [lexLt]; exact Bool.noConfusion)
    | cons b bs =>
      cases l₃ with
      | nil => exact absurd h2 (by rw [lexLt]; exact Bool.noConfusion)
      | cons c cs =>
        rw [lexLt] at h1 h2 ⊢
        by_cases hab : a < b
        · rw [if_pos hab] at h1
          by_cases hbc : b < c
          · rw [if_pos (lt_trans hab hbc)]
          · rw [if_neg hbc] at h2
            by_cases hcb : c < b
            · rw [if_pos hcb] at h2
              exact absurd h2 (by decide)
            · have hbceq : b = c := by
                rcases lt_trichotomy b c with h | h | h
                · exact absurd h hbc
                · exact h
                · exact absurd h hcb
              rw [if_pos (hbceq ▸ hab)]
        · rw [if_neg hab] at h1
          by_cases hba : b < a
          · rw [if_pos hba] at h1
            exact absurd h1 (by decide)
          · rw [if_neg hba] at h1
            have habeq : a = b := by
              rcases lt_trichotomy a b with h | h | h
              · exact absurd h hab
              · exact h
              · exact absurd h hba
            by_cases hbc : b < c
            · rw [if_pos (habeq ▸ hbc)]
            · rw [if_neg hbc] at h2
              by_cases hcb : c < b
              · rw [if_pos hcb] at h2
                exact absurd h2 (by decide)
              · rw [if_neg hcb] at h2
                rw [if_neg (habeq ▸ hbc), if_neg (habeq ▸ hcb)]
                exact ih bs cs h1 h2

theorem pyStrLe_refl (s : String) : pyStrLe s s = true := by
  rw [pyStrLe, pyStrLt, lexLt_irrefl]
  rfl

theorem pyStrLe_total (s t : String) : pyStrLe s t = true ∨ pyStrLe t s = true := by
  rw [pyStrLe, pyStrLe, pyStrLt, pyStrLt]
  cases h1 : lexLt t.data s.data
  · left
    rfl
  · right
    rw [lexLt_asymm _ _ h1]
    rfl

theorem pyStrLe_trans {a b c : String} (h1 : pyStrLe a b = true) (h2 : pyStrLe b c = true) :
    pyStrLe a c = true := by
  rw [pyStrLe, pyStrLt] at h1 h2 ⊢
  have hba : lexLt b.data a.data = false := by
    cases h : lexLt b.data a.data
    · rfl
    · rw [h] at h1
      exact Bool.noConfusion h1
  have hcb : lexLt c.data b.data = false := by
    cases h : lexLt c.data b.data
    · rfl
    · rw [h] at h2
      exact Bool.noConfusion h2
  cases hca : lexLt c.data a.data
  · rfl
  · exfalso
    cases hab : lexLt a.data b.data
    · have heq := lexLt_connex _ _ hab hba
      rw [heq] at hca
      rw [hca] at hcb
      exact Bool.noConfusion hcb
    · have := lexLt_trans _ _ _ hca hab
      rw [this] at hcb
      exact Bool.noConfusion hcb

theorem pyStrLe_of_lt {s t : String} (h : pyStrLt s t = true) : pyStrLe s t = true := by
  rw [pyStrLe, pyStrLt] at *
  rw [lexLt_asymm _ _ h]
  rfl

theorem rowsOf_map_row (items : List Row) : rowsOf (items.map Entry.row) = items := by
  induction items with
  | nil => rfl
  | cons r rest ih => simp [rowsOf, List.filterMap] at ih ⊢; exact ih

theorem filter_orderedInsert {α : Type} (r : α → α → Prop) [DecidableRel r]
    (p : α → Bool) (a : α) (l : List α)
    (hp : ∀ b, p a = true → p b = true → r a b) :
    (List.orderedInsert r a l).filter p
      = if p a then a :: l.filter p else l.filter p := by
  induction l with
  | nil => by_cases h : p a <;> simp [List.orderedInsert, h]
  | cons b bs ih =>
    rw [List.orderedInsert]
    by_cases hr : r a b
    · rw [if_pos hr]
      by_cases h : p a <;> simp [List.filter_cons, h]
    · rw [if_neg hr]
      by_cases h : p a
      · have hb : p b = false := by
          cases hpb : p b
          · rfl
          · exact absurd (hp b h hpb) hr
        simp [List.filter_cons, hb, h, ih]
      · simp [List.filter_cons, h, ih]

theorem filter_insertionSort {α : Type} (r : α → α → Prop) [DecidableRel r]
    (p : α → Bool) (l : List α)
    (hp : ∀ a b, p a = true → p b = true → r a b) :
    (List.insertionSort r l).filter p = l.filter p := by
  induction l with
  | nil => rfl
  | cons a l ih =>
    rw [List.insertionSort, filter_orderedInsert r p a _ (fun b => hp a b)]
    by_cases h : p a
    · simp [List.filter_cons, h, ih]
    · simp [List.filter_cons, h, ih]

/-- C8: sorting by a column is stable for both sort orders. With no
group column (so the grouping pass passes rows through) and a sort
column other than "Custom Order" (whose descending order the source
forces back to ascending), `sortByColumn` permutes the rows into
order by the lowercased text of the sort column — reversed for
descending — and rows with equal raw sort-column text keep their
relative input order (their filtered subsequence is unchanged). -/
theorem sortByColumn_stable (labels : List String) (sc : Int) (sortOrder : SOrder)
    (curGroupOrder : SOrder) (items : List Row)
    (hlabel : labelFromColumn labels sc ≠ "Custom Order") :
    (rowsOf (sortByColumn labels (some sc) sortOrder none none curGroupOrder items)).Perm
        items ∧
    (sortOrder = SOrder.asc →
      (rowsOf (sortByColumn labels (some sc) sortOrder none none curGroupOrder
        items)).Sorted (fun a b =>
          pyStrLe (pyLower (a.text (labelFromColumn labels sc)))
            (pyLower (b.text (labelFromColumn labels sc))) = true)) ∧
    (sortOrder = SOrder.desc →
      (rowsOf (sortByColumn labels (some sc) sortOrder none none curGroupOrder
        items)).Sorted (fun a b =>
          pyStrLe (pyLower (b.text (labelFromColumn labels sc)))
            (pyLower (a.text (labelFromColumn labels sc))) = true)) ∧
    (∀ v : String,
      (rowsOf (sortByColumn labels (some sc) sortOrder none none curGroupOrder
          items)).filter (fun x => decide (x.text (labelFromColumn labels sc) = v))
        = items.filter (fun x => decide (x.text (labelFromColumn labels sc) = v))) := by
  have hout : rowsOf (sortByColumn labels (some sc) sortOrder none none curGroupOrder items)
      = pySorted (fun item => pyLower (item.text (labelFromColumn labels sc)))
          (decide (sortOrder = SOrder.desc)) items := by
    have horder : (if labelFromColumn labels sc = "Custom Order" ∧ sortOrder ≠ SOrder.asc
        then SOrder.asc else sortOrder) = sortOrder := if_neg (fun hc => hlabel hc.1)
    simp only [sortByColumn, groupByColumn, Option.getD_some, horder]
    exact rowsOf_map_row _
  rw [hout]
  cases sortOrder with
  | asc =>
    have hs : pySorted (fun item => pyLower (item.text (labelFromColumn labels sc)))
        (decide (SOrder.asc = SOrder.desc)) items
        = List.insertionSort
            (fun a b => pyStrLe (pyLower (a.text (labelFromColumn labels sc)))
              (pyLower (b.text (labelFromColumn labels sc))) = true) items := rfl
    rw [hs]
    haveI : IsTotal Row (fun a b => pyStrLe (pyLower (a.text (labelFromColumn labels sc)))
        (pyLower (b.text (labelFromColumn labels sc))) = true) :=
      ⟨fun a b => pyStrLe_total _ _⟩
    haveI : IsTrans Row (fun a b => pyStrLe (pyLower (a.text (labelFromColumn labels sc)))
        (pyLower (b.text (labelFromColumn labels sc))) = true) :=
      ⟨fun _ _ _ hab hbc => pyStrLe_trans hab hbc⟩
    refine ⟨List.perm_insertionSort _ items, fun _ => List.sorted_insertionSort _ items,
      fun hcontra => SOrder.noConfusion hcontra, fun v => ?_⟩
    refine filter_insertionSort _ _ items ?_
    intro a b ha hb
    have ha' := of_decide_eq_true ha
    have hb' := of_decide_eq_true hb
    rw [ha'.trans hb'.symm]
    exact pyStrLe_refl _
  | desc =>
    have hs : pySorted (fun item => pyLower (item.text (labelFromColumn labels sc)))
        (decide (SOrder.desc = SOrder.desc)) items
        = List.insertionSort
            (fun a b => pyStrLe (pyLower (b.text (labelFromColumn labels sc)))
              (pyLower (a.text (labelFromColumn labels sc))) = true) items := rfl
    rw [hs]
    haveI : IsTotal Row (fun a b => pyStrLe (pyLower (b.text (labelFromColumn labels sc)))
        (pyLower (a.text (labelFromColumn labels sc))) = true) :=
      ⟨fun a b => (pyStrLe_total _ _).symm⟩
    haveI : IsTrans Row (fun a b => pyStrLe (pyLower (b.text (labelFromColumn labels sc)))
        (pyLower (a.text (labelFromColumn labels sc))) = true) :=
      ⟨fun _ _ _ hab hbc => pyStrLe_trans hbc hab⟩
    refine ⟨List.perm_insertionSort _ items, fun hcontra => SOrder.noConfusion hcontra,
      fun _ => List.sorted_insertionSort _ items, fun v => ?_⟩
    refine filter_insertionSort _ _ items ?_
    intro a b ha hb
    have ha' := of_decide_eq_true ha
    have hb' := of_decide_eq_true hb
    rw [hb'.trans ha'.symm]
    exact pyStrLe_refl _

/-- Witness for `sortByColumn_stable` at a concrete input: two rows with
equal lowercased sort keys keep their relative order under a descending
sort. -/
theorem sortByColumn_stable_witness :
    (rowsOf (sortByColumn ["Name"] (some 0) SOrder.desc none none SOrder.asc
        [⟨1, [("Name", "a")], []⟩, ⟨2, [("Name", "A")], []⟩])).filter
        (fun x => decide (x.text "Name" = "a"))
      = ([⟨1, [("Name", "a")], []⟩, ⟨2, [("Name", "A")], []⟩] : List Row).filter
        (fun x => decide (x.text "Name" = "a")) :=
  (sortByColumn_stable ["Name"] 0 SOrder.desc SOrder.asc
    [⟨1, [("Name", "a")], []⟩, ⟨2, [("Name", "A")], []⟩] (by decide)).2.2.2 "a"

theorem addHeaders_count (c : Int) : ∀ (cur : String) (rows : List Row),
    ((addHeaders c cur rows).filter Entry.isHeader).length
      = changesFrom cur (rows.map (fun r => r.displayText c)) := by
  intro cur rows
  induction rows generalizing cur with
  | nil => rfl
  | cons r rest ih =>
    rw [addHeaders, List.map_cons, changesFrom]
    by_cases h : r.displayText c ≠ cur
    · rw [if_pos h, if_pos h]
      simp only [List.filter_cons, Entry.isHeader, List.length_cons]
      simp [Nat.add_comm]
      exact ih _
    · rw [if_neg h, if_neg h]
      simp only [List.filter_cons, Entry.isHeader]
      simp
      exact ih _

theorem changesFrom_empty (l : List String) :
    changesFrom "" l = if l.head? = some "" then runsCount l - 1 else runsCount l := by
  cases l with
  | nil => rfl
  | cons x xs =>
    rw [changesFrom, runsCount]
    by_cases h : x = ""
    · subst h
      simp
    · simp [h]

/-- C4, counterexample: a single row whose displayed group text is the
empty string gets no header (the loop seeds `currentGroupText = ""`), so
one maximal run yields zero header rows. -/
theorem groupByColumn_empty_first_run_counterexample :
    ((groupByColumn ["Name", "Category"] (some 1) (some SOrder.asc) SOrder.asc
        [⟨0, [("Category", "x")], [(1, "")]⟩]).filter Entry.isHeader).length = 0 ∧
    runsCount (([⟨0, [("Category", "x")], [(1, "")]⟩] : List Row).map
        (fun r => r.displayText 1)) = 1 ∧
    (0 : Nat) ≠ 1 := by
  refine ⟨?_, rfl, by decide⟩
  rfl

/-- C4, amended: grouping by a set group column (a nonzero index —
Python truthiness disables grouping for column 0) inserts one header
row before each maximal contiguous run of rows with equal displayed
group text, except that an initial run whose displayed text is the
empty string gets no header: the header count equals the number of
maximal runs of the sorted sequence, minus one when the first sorted
row's displayed text is empty. -/
theorem groupByColumn_header_count (labels : List String) (c : Int) (go : Option SOrder)
    (cur : SOrder) (items : List Row) (hc : c ≠ 0) :
    ((groupByColumn labels (some c) go cur items).filter Entry.isHeader).length
      = (if ((pySorted (fun r => pyLower (r.text (labelFromColumn labels c)))
              (decide (go.getD cur = SOrder.desc)) items).map
              (fun r => r.displayText c)).head? = some ""
         then runsCount ((pySorted (fun r => pyLower (r.text (labelFromColumn labels c)))
              (decide (go.getD cur = SOrder.desc)) items).map
              (fun r => r.displayText c)) - 1
         else runsCount ((pySorted (fun r => pyLower (r.text (labelFromColumn labels c)))
              (decide (go.getD cur = SOrder.desc)) items).map
              (fun r => r.displayText c))) := by
  have hgroup : groupByColumn labels (some c) go cur items
      = addHeaders c ""
          (pySorted (fun r => pyLower (r.text (labelFromColumn labels c)))
            (decide (go.getD cur = SOrder.desc)) items) := by
    simp only [groupByColumn]
    rw [if_neg hc]
  rw [hgroup, addHeaders_count, changesFrom_empty]

/-- Witness for `groupByColumn_header_count` at a concrete input: two
rows with distinct nonempty displayed categories yield two runs and two
headers. -/
theorem groupByColumn_header_count_witness :
    ((groupByColumn ["Name", "Category"] (some 1) (some SOrder.asc) SOrder.asc
        [⟨0, [("Category", "b")], [(1, "B")]⟩, ⟨1, [("Category", "a")], [(1, "A")]⟩]).filter
        Entry.isHeader).length
      = (if ((pySorted (fun r => pyLower (r.text (labelFromColumn ["Name", "Category"] 1)))
              (decide ((some SOrder.asc).getD SOrder.asc = SOrder.desc))
              [⟨0, [("Category", "b")], [(1, "B")]⟩, ⟨1, [("Category", "a")], [(1, "A")]⟩]).map
              (fun r => r.displayText 1)).head? = some ""
         then runsCount ((pySorted
                (fun r => pyLower (r.text (labelFromColumn ["Name", "Category"] 1)))
                (decide ((some SOrder.asc).getD SOrder.asc = SOrder.desc))
                [⟨0, [("Category", "b")], [(1, "B")]⟩,
                 ⟨1, [("Category", "a")], [(1, "A")]⟩]).map (fun r => r.displayText 1)) - 1
         else runsCount ((pySorted
                (fun r => pyLower (r.text (labelFromColumn ["Name", "Category"] 1)))
                (decide ((some SOrder.asc).getD SOrder.asc = SOrder.desc))
                [⟨0, [("Category", "b")], [(1, "B")]⟩,
                 ⟨1, [("Category", "a")], [(1, "A")]⟩]).map (fun r => r.displayText 1))) :=
  groupByColumn_header_count ["Name", "Category"] 1 (some SOrder.asc) SOrder.asc
    [⟨0, [("Category", "b")], [(1, "B")]⟩, ⟨1, [("Category", "a")], [(1, "A")]⟩] (by decide)

theorem toDecCore_acc : ∀ (fuel n : Nat), n < fuel → ∀ acc,
    toDecCore fuel n acc = toDecCore fuel n [] ++ acc := by
  intro fuel
  induction fuel with
  | zero => intro n h; omega
  | succ f ih =>
    intro n h acc
    rw [toDecCore, toDecCore]
    by_cases h0 : n / 10 = 0
    · rw [if_pos h0, if_pos h0]
      rfl
    · rw [if_neg h0, if_neg h0]
      have h10 : 10 ≤ n := by
        by_contra hc
        push_neg at hc
        exact h0 (Nat.div_eq_of_lt hc)
      have hlt : n / 10 < f := by
        have := Nat.div_lt_self (by omega : 0 < n) (by omega : 1 < 10)
        omega
      rw [ih (n / 10) hlt (Nat.digitChar (n % 10) :: acc),
        ih (n / 10) hlt [Nat.digitChar (n % 10)]]
      simp

theorem toDecCore_fuel : ∀ (fuel fuel' n : Nat), n < fuel → n < fuel' →
    toDecCore fuel n [] = toDecCore fuel' n [] := by
  intro fuel
  induction fuel with
  | zero => intro fuel' n h; omega
  | succ f ih =>
    intro fuel' n h h'
    cases fuel' with
    | zero => omega
    | succ f' =>
      rw [toDecCore, toDecCore]
      by_cases h0 : n / 10 = 0
      · rw [if_pos h0, if_pos h0]
      · rw [if_neg h0, if_neg h0]
        have h10 : 10 ≤ n := by
          by_contra hc
          push_neg at hc
          exact h0 (Nat.div_eq_of_lt hc)
        have hlt : n / 10 < f := by
          have := Nat.div_lt_self (by omega : 0 < n) (by omega : 1 < 10)
          omega
        have hlt' : n / 10 < f' := by
          have := Nat.div_lt_self (by omega : 0 < n) (by omega : 1 < 10)
          omega
        rw [toDecCore_acc f (n / 10) hlt, toDecCore_acc f' (n / 10) hlt',
          ih f' (n / 10) hlt hlt']

theorem toDec_small {n : Nat} (h : n < 10) : toDec n = [Nat.digitChar n] := by
  rw [toDec, toDecCore, if_pos (Nat.div_eq_of_lt h), Nat.mod_eq_of_lt h]

theorem toDec_big {n : Nat} (h : 10 ≤ n) :
    toDec n = toDec (n / 10) ++ [Nat.digitChar (n % 10)] := by
  rw [toDec, toDecCore]
  have h0 : ¬ n / 10 = 0 := by
    have := Nat.div_pos h (by omega : 0 < 10)
    omega
  rw [if_neg h0]
  have hlt : n / 10 < n := Nat.div_lt_self (by omega) (by omega)
  rw [toDecCore_acc n (n / 10) hlt, toDecCore_fuel n (n / 10 + 1) (n / 10) hlt (by omega)]
  rfl

theorem digs_zeroHead (w n : Nat) (h : n < 10 ^ w) : digs (w + 1) n = '0' :: digs w n := by
  rw [digs, Nat.div_eq_of_lt h, Nat.mod_eq_of_lt h]
  rfl

theorem digs_append : ∀ (w n : Nat), n < 10 ^ (w + 1) →
    digs (w + 1) n = digs w (n / 10) ++ [Nat.digitChar (n % 10)] := by
  intro w
  induction w with
  | zero =>
    intro n h
    have h10 : n < 10 := by simpa using h
    rw [digs, digs, digs]
    rw [Nat.pow_zero, Nat.div_one, Nat.mod_eq_of_lt h10]
    rfl
  | succ w ih =>
    intro n h
    have hhead : (n / 10) / 10 ^ w = n / 10 ^ (w + 1) := by
      rw [Nat.div_div_eq_div_mul]
      congr 1
      rw [pow_succ']
    have hdvd : (10 : Nat) ∣ 10 ^ (w + 1) := ⟨10 ^ w, pow_succ' 10 w⟩
    have htail : digs (w + 1) (n % 10 ^ (w + 1))
        = digs w ((n / 10) % 10 ^ w) ++ [Nat.digitChar (n % 10)] := by
      have hm : n % 10 ^ (w + 1) < 10 ^ (w + 1) :=
        Nat.mod_lt _ (pow_pos (by norm_num) _)
      rw [ih (n % 10 ^ (w + 1)) hm]
      have e1 : (n % 10 ^ (w + 1)) / 10 = (n / 10) % 10 ^ w := by
        rw [show (10 : Nat) ^ (w + 1) = 10 * 10 ^ w from pow_succ' 10 w]
        exact Nat.mod_mul_right_div_self n 10 (10 ^ w)
      have e2 : (n % 10 ^ (w + 1)) % 10 = n % 10 := Nat.mod_mod_of_dvd n hdvd
      rw [e1, e2]
    calc digs (w + 1 + 1) n
        = Nat.digitChar (n / 10 ^ (w + 1)) :: digs (w + 1) (n % 10 ^ (w + 1)) := by
          rw [digs]
      _ = Nat.digitChar (n / 10 ^ (w + 1))
            :: (digs w ((n / 10) % 10 ^ w) ++ [Nat.digitChar (n % 10)]) := by
          rw [htail]
      _ = (Nat.digitChar ((n / 10) / 10 ^ w) :: digs w ((n / 10) % 10 ^ w))
            ++ [Nat.digitChar (n % 10)] := by
          rw [hhead]
          rfl
      _ = digs (w + 1) (n / 10) ++ [Nat.digitChar (n % 10)] := by
          rw [digs]

theorem toDec_length_le : ∀ (w n : Nat), n < 10 ^ (w + 1) → (toDec n).length ≤ w + 1 := by
  intro w
  induction w with
  | zero =>
    intro n h
    rw [toDec_small (by simpa using h)]
    simp
  | succ w ih =>
    intro n h
    by_cases h10 : n < 10
    · rw [toDec_small h10]
      simp
    · rw [toDec_big (by omega)]
      have hdiv : n / 10 < 10 ^ (w + 1) := by
        rw [Nat.div_lt_iff_lt_mul (by norm_num)]
        calc n < 10 ^ (w + 1 + 1) := h
          _ = 10 ^ (w + 1) * 10 := pow_succ 10 (w + 1)
      have := ih (n / 10) hdiv
      simp only [List.length_append, List.length_cons, List.length_nil]
      omega

theorem toDec_exact : ∀ (w n : Nat), 10 ^ w ≤ n → n < 10 ^ (w + 1) →
    toDec n = digs (w + 1) n ∧ (toDec n).length = w + 1 := by
  intro w
  induction w with
  | zero =>
    intro n h1 h2
    have h10 : n < 10 := by simpa using h2
    rw [toDec_small h10]
    constructor
    · rw [digs, digs, Nat.pow_zero, Nat.div_one]
    · rfl
  | succ w ih =>
    intro n h1 h2
    have h10 : 10 ≤ n := by
      calc (10 : Nat) = 10 ^ 1 := by norm_num
        _ ≤ 10 ^ (w + 1) := Nat.pow_le_pow_right (by norm_num) (by omega)
        _ ≤ n := h1
    have hdiv1 : 10 ^ w ≤ n / 10 := by
      rw [Nat.le_div_iff_mul_le (by norm_num : (0:Nat) < 10)]
      calc 10 ^ w * 10 = 10 ^ (w + 1) := (pow_succ 10 w).symm
        _ ≤ n := h1
    have hdiv2 : n / 10 < 10 ^ (w + 1) := by
      rw [Nat.div_lt_iff_lt_mul (by norm_num)]
      calc n < 10 ^ (w + 1 + 1) := h2
        _ = 10 ^ (w + 1) * 10 := pow_succ 10 (w + 1)
    obtain ⟨e, el⟩ := ih (n / 10) hdiv1 hdiv2
    constructor
    · rw [toDec_big h10, e, ← digs_append (w + 1) n h2]
    · rw [toDec_big h10]
      simp only [List.length_append, List.length_cons, List.length_nil]
      omega

theorem digs_small : ∀ (w n : Nat), n < 10 →
    digs (w + 1) n = List.replicate w '0' ++ [Nat.digitChar n] := by
  intro w
  induction w with
  | zero =>
    intro n h
    rw [digs, digs, Nat.pow_zero, Nat.div_one]
    rfl
  | succ w ih =>
    intro n h
    have hbound : n < 10 ^ (w + 1) := by
      calc n < 10 := h
        _ = 10 ^ 1 := by norm_num
        _ ≤ 10 ^ (w + 1) := Nat.pow_le_pow_right (by norm_num) (by omega)
    rw [digs_zeroHead (w + 1) n hbound, ih n h, List.replicate_succ]
    rfl

theorem padded_toDec : ∀ (w n : Nat), n < 10 ^ (w + 1) →
    List.replicate ((w + 1) - (toDec n).length) '0' ++ toDec n = digs (w + 1) n := by
  intro w
  induction w with
  | zero =>
    intro n h
    have h10 : n < 10 := by simpa using h
    rw [toDec_small h10, digs_small 0 n h10]
    rfl
  | succ w ih =>
    intro n h
    by_cases hn : n < 10 ^ (w + 1)
    · rw [digs_zeroHead (w + 1) n hn, ← ih n hn]
      have hlen : (toDec n).length ≤ w + 1 := toDec_length_le w n hn
      have hstep : (w + 1 + 1) - (toDec n).length = ((w + 1) - (toDec n).length) + 1 := by
        omega
      rw [hstep, List.replicate_succ]
      rfl
    · have h1 : 10 ^ (w + 1) ≤ n := by omega
      obtain ⟨e, el⟩ := toDec_exact (w + 1) n h1 h
      rw [el]
      simp only [Nat.sub_self, List.replicate, List.nil_append]
      exact e

theorem digitChar_lt {a b : Nat} (h : a < b) (hb : b ≤ 9) :
    Nat.digitChar a < Nat.digitChar b := by
  interval_cases b <;> interval_cases a <;> decide

theorem digs_lexLt : ∀ (w m n : Nat), m < n → n < 10 ^ w →
    lexLt (digs w m) (digs w n) = true := by
  intro w
  induction w with
  | zero =>
    intro m n h1 h2
    simp at h2
    omega
  | succ w ih =>
    intro m n h1 h2
    rw [digs, digs, lexLt]
    have hdm_le : m / 10 ^ w ≤ n / 10 ^ w := Nat.div_le_div_right (le_of_lt h1)
    have hdn : n / 10 ^ w ≤ 9 := by
      have hlt : n / 10 ^ w < 10 := by
        rw [Nat.div_lt_iff_lt_mul (pow_pos (by norm_num) w)]
        calc n < 10 ^ (w + 1) := h2
          _ = 10 * 10 ^ w := pow_succ' 10 w
      omega
    by_cases hd : m / 10 ^ w < n / 10 ^ w
    · rw [if_pos (digitChar_lt hd hdn)]
    · have hdeq : m / 10 ^ w = n / 10 ^ w := le_antisymm hdm_le (le_of_not_lt hd)
      rw [hdeq, if_neg (lt_irrefl _), if_neg (lt_irrefl _)]
      apply ih
      · have em := Nat.div_add_mod m (10 ^ w)
        have en := Nat.div_add_mod n (10 ^ w)
        rw [hdeq] at em
        omega
      · exact Nat.mod_lt n (pow_pos (by norm_num) w)

theorem digitChar_toLower {d : Nat} (hd : d ≤ 9) :
    (Nat.digitChar d).toLower = Nat.digitChar d := by
  interval_cases d <;> decide

theorem digs_toLower : ∀ (w n : Nat), n < 10 ^ w → ∀ c ∈ digs w n, c.toLower = c := by
  intro w
  induction w with
  | zero =>
    intro n _ c hc
    exact absurd hc (List.not_mem_nil c)
  | succ w ih =>
    intro n hn c hc
    rw [digs] at hc
    rcases List.mem_cons.mp hc with h | h
    · rw [h]
      refine digitChar_toLower ?_
      have hlt : n / 10 ^ w < 10 := by
        rw [Nat.div_lt_iff_lt_mul (pow_pos (by norm_num) w)]
        calc n < 10 ^ (w + 1) := hn
          _ = 10 * 10 ^ w := pow_succ' 10 w
      omega
    · exact ih _ (Nat.mod_lt n (pow_pos (by norm_num) w)) c h

theorem zfill_natRepr_data (width n : Nat) (h : (toDec n).length ≤ width) :
    (zfill width (natRepr n)).data
      = List.replicate (width - (toDec n).length) '0' ++ toDec n := by
  rw [zfill, natRepr]
  by_cases hw : width ≤ (String.mk (toDec n)).data.length
  · rw [if_pos hw]
    have hlen : (toDec n).length = width := le_antisymm h hw
    rw [hlen]
    simp
  · rw [if_neg hw]

theorem pow_five : (10 : Nat) ^ 5 = 100000 := by norm_num

theorem rank_data (n : Nat) (hn : n ≤ 99999) : (rank n).data = digs 5 n := by
  have h5 : n < 10 ^ 5 := by
    rw [pow_five]
    omega
  have hl : (toDec n).length ≤ 5 := toDec_length_le 4 n h5
  rw [rank, zfill_natRepr_data 5 n hl]
  exact padded_toDec 4 n h5

theorem rank_length (n : Nat) (hn : n ≤ 99999) : (rank n).data.length = 5 := by
  rw [rank_data n hn]
  have : ∀ (w m : Nat), (digs w m).length = w := by
    intro w
    induction w with
    | zero => intro m; rfl
    | succ w ih => intro m; rw [digs]; simp [ih]
  exact this 5 n

theorem rank_lt {m n : Nat} (h : m < n) (hn : n ≤ 99999) :
    pyStrLt (rank m) (rank n) = true := by
  have h5 : n < 10 ^ 5 := by
    rw [pow_five]
    omega
  rw [pyStrLt, rank_data m (by omega), rank_data n hn]
  exact digs_lexLt 5 m n h h5

theorem map_toLower_eq_self : ∀ (l : List Char), (∀ c ∈ l, c.toLower = c) →
    l.map Char.toLower = l := by
  intro l
  induction l with
  | nil => intro _; rfl
  | cons c cs ih =>
    intro h
    rw [List.map_cons, h c (List.mem_cons_self _ _), ih (fun x hx => h x (List.mem_cons_of_mem _ hx))]

theorem pyLower_rank (n : Nat) (hn : n ≤ 99999) : pyLower (rank n) = rank n := by
  have hdata : (rank n).data = digs 5 n := rank_data n hn
  have h5 : n < 10 ^ 5 := by
    rw [pow_five]
    omega
  calc pyLower (rank n) = ⟨(digs 5 n).map Char.toLower⟩ := by rw [pyLower, hdata]
    _ = ⟨digs 5 n⟩ := by rw [map_toLower_eq_self _ (digs_toLower 5 n h5)]
    _ = ⟨(rank n).data⟩ := by rw [hdata]
    _ = rank n := rfl

theorem text_setText (r : Row) (label v : String) : (r.setText label v).text label = v := by
  rw [Row.setText, Row.text]
  simp [alookup_dictSet_self]

theorem setCO_map_rid : ∀ (l : List Row) (n : Nat),
    (setItemsCustomOrder l n).map Row.rid = l.map Row.rid := by
  intro l
  induction l with
  | nil => intro n; rfl
  | cons r rest ih =>
    intro n
    rw [setItemsCustomOrder, List.map_cons, List.map_cons, ih]
    rfl

theorem mem_setCO : ∀ (l : List Row) (n : Nat) (x : Row), x ∈ setItemsCustomOrder l n →
    ∃ j, j < l.length ∧ x.text "Custom Order" = rank (n + j) := by
  intro l
  induction l with
  | nil =>
    intro n x hx
    exact absurd hx (List.not_mem_nil x)
  | cons r rest ih =>
    intro n x hx
    rw [setItemsCustomOrder] at hx
    rcases List.mem_cons.mp hx with h | h
    · refine ⟨0, by simp, ?_⟩
      rw [h, text_setText]
      rfl
    · obtain ⟨j, hj, he⟩ := ih (n + 1) x h
      refine ⟨j + 1, by simp; omega, ?_⟩
      rw [he]
      congr 1
      omega

theorem sorted_setCO : ∀ (l : List Row) (n : Nat), 1 ≤ n → n + l.length ≤ 100000 →
    (setItemsCustomOrder l n).Sorted
      (fun a b => pyStrLe (a.text "Custom Order") (b.text "Custom Order") = true) := by
  intro l
  induction l with
  | nil => intro n _ _; exact List.sorted_nil
  | cons r rest ih =>
    intro n h1 h2
    rw [setItemsCustomOrder, List.sorted_cons]
    constructor
    · intro b hb
      obtain ⟨j, hj, he⟩ := mem_setCO rest (n + 1) b hb
      rw [he, text_setText]
      have hlt : pyStrLt (rank n) (rank (n + 1 + j)) = true := by
        refine rank_lt (by omega) ?_
        simp only [List.length_cons] at h2
        omega
      exact pyStrLe_of_lt hlt
    · refine ih (n + 1) (by omega) ?_
      simp only [List.length_cons] at h2
      omega

theorem sorted_setCO_lower (l : List Row) (n : Nat)
    (h1 : 1 ≤ n) (h2 : n + l.length ≤ 100000) :
    (setItemsCustomOrder l n).Sorted
      (fun a b => pyStrLe (pyLower (a.text "Custom Order"))
        (pyLower (b.text "Custom Order")) = true) := by
  have hs := sorted_setCO l n h1 h2
  refine List.Pairwise.imp_of_mem ?_ hs
  intro a b ha hb hr
  obtain ⟨ja, hja, ea⟩ := mem_setCO l n a ha
  obtain ⟨jb, hjb, eb⟩ := mem_setCO l n b hb
  rw [ea, eb, pyLower_rank _ (by omega), pyLower_rank _ (by omega)]
  rw [ea, eb] at hr
  exact hr

theorem eraseFold_length : ∀ (sel l : List Row), sel.Nodup → (∀ s ∈ sel, s ∈ l) →
    (sel.foldl List.erase l).length + sel.length = l.length := by
  intro sel
  induction sel with
  | nil =>
    intro l _ _
    simp
  | cons s ss ih =>
    intro l hnd hsub
    have hs : s ∈ l := hsub s (List.mem_cons_self _ _)
    have hss : ∀ x ∈ ss, x ∈ l.erase s := by
      intro x hx
      have hx_ne : x ≠ s := by
        intro he
        exact (List.nodup_cons.mp hnd).1 (he ▸ hx)
      exact (List.mem_erase_of_ne hx_ne).mpr (hsub x (List.mem_cons_of_mem _ hx))
    have := ih (l.erase s) (List.nodup_cons.mp hnd).2 hss
    have hlen := List.length_erase_of_mem hs
    have hpos := List.length_pos_of_mem hs
    show (List.foldl List.erase (l.erase s) ss).length + (s :: ss).length = l.length
    simp only [List.length_cons]
    omega

theorem indexOf_middle (pre post : List Row) (t : Row) (h : t ∉ pre) :
    (pre ++ t :: post).indexOf t = pre.length := by
  rw [List.indexOf_append_of_not_mem h, List.indexOf_cons_self]
  omega

theorem eraseFold_decomp : ∀ (sel pre post : List Row) (t : Row),
    (pre ++ t :: post).Nodup → sel.Nodup → (∀ s ∈ sel, s ∈ post) →
    sel.foldl List.erase (pre ++ t :: post) = pre ++ t :: sel.foldl List.erase post ∧
    (sel.foldl List.erase post).length + sel.length = post.length := by
  intro sel
  induction sel with
  | nil =>
    intro pre post t _ _ _
    exact ⟨rfl, by simp⟩
  | cons s ss ih =>
    intro pre post t hnd hselnd hsel
    have hs_post : s ∈ post := hsel s (List.mem_cons_self _ _)
    obtain ⟨hpre_nd, hrest_nd, hdisj⟩ := List.nodup_append.mp hnd
    have hs_pre : s ∉ pre := fun hsp => hdisj hsp (List.mem_cons_of_mem t hs_post)
    have ht_post : t ∉ post := (List.nodup_cons.mp hrest_nd).1
    have hst : t ≠ s := fun he => ht_post (he ▸ hs_post)
    have herase : List.erase (pre ++ t :: post) s = pre ++ t :: post.erase s := by
      rw [List.erase_append_right _ hs_pre, List.erase_cons_tail]
      simp [hst]
    have hss_sub : ∀ x ∈ ss, x ∈ post.erase s := by
      intro x hx
      have hx_post := hsel x (List.mem_cons_of_mem _ hx)
      have hx_ne : x ≠ s := by
        intro he
        exact (List.nodup_cons.mp hselnd).1 (he ▸ hx)
      exact (List.mem_erase_of_ne hx_ne).mpr hx_post
    have hnd2 : (pre ++ t :: post.erase s).Nodup := by
      refine List.Nodup.sublist ?_ hnd
      refine List.Sublist.append_left ?_ pre
      exact List.Sublist.cons₂ t (List.erase_sublist s post)
    obtain ⟨e1, e2⟩ := ih pre (post.erase s) t hnd2 (List.nodup_cons.mp hselnd).2 hss_sub
    constructor
    · show List.foldl List.erase (List.erase (pre ++ t :: post) s) ss
        = pre ++ t :: List.foldl List.erase (post.erase s) ss
      rw [herase]
      exact e1
    · have hlen := List.length_erase_of_mem hs_post
      have hpos := List.length_pos_of_mem hs_post
      show (List.foldl List.erase (post.erase s) ss).length + (s :: ss).length = post.length
      simp only [List.length_cons]
      omega

theorem pyInsert_append {α : Type} : ∀ (pre rest : List α) (a : α),
    pyInsert (pre ++ rest) pre.length a = pre ++ a :: rest := by
  intro pre
  induction pre with
  | nil => intro rest a; cases rest <;> rfl
  | cons p ps ih =>
    intro rest a
    show p :: pyInsert (ps ++ rest) ps.length a = p :: (ps ++ a :: rest)
    rw [ih]

theorem foldl_pyInsert (pre : List Row) : ∀ (sel rest : List Row),
    sel.foldl (fun acc s => pyInsert acc pre.length s) (pre ++ rest)
      = pre ++ sel.reverse ++ rest := by
  intro sel
  induction sel with
  | nil => intro rest; simp
  | cons s ss ih =>
    intro rest
    rw [List.foldl_cons, pyInsert_append, ih (s :: rest)]
    simp

theorem setCO_length : ∀ (l : List Row) (n : Nat),
    (setItemsCustomOrder l n).length = l.length := by
  intro l
  induction l with
  | nil => intro n; rfl
  | cons r rest ih =>
    intro n
    rw [setItemsCustomOrder]
    simp [ih]

theorem sortByColumn_custom_relabeled (labels : List String) (l : List Row) (go : SOrder)
    (hlab : labelFromColumn labels (columnFromLabel labels "Custom Order") = "Custom Order")
    (hlen : l.length ≤ 99999) :
    rowsOf (sortByColumn labels (some (columnFromLabel labels "Custom Order")) SOrder.asc
        none (some go) go (setItemsCustomOrder l 1))
      = setItemsCustomOrder l 1 := by
  have hout : rowsOf (sortByColumn labels (some (columnFromLabel labels "Custom Order"))
      SOrder.asc none (some go) go (setItemsCustomOrder l 1))
      = List.insertionSort
          (fun a b => pyStrLe (pyLower (a.text "Custom Order"))
            (pyLower (b.text "Custom Order")) = true) (setItemsCustomOrder l 1) := by
    simp only [sortByColumn, groupByColumn, Option.getD_some, hlab, ite_self, pySorted]
    rw [if_neg (by decide : ¬ ((decide (SOrder.asc = SOrder.desc)) = true))]
    exact rowsOf_map_row _
  rw [hout]
  exact (sorted_setCO_lower l 1 (by omega) (by omega)).insertionSort_eq

theorem itemsCustomOrder_relabeled (l : List Row) (hlen : l.length ≤ 99999) :
    itemsCustomOrder (setItemsCustomOrder l 1) = setItemsCustomOrder l 1 :=
  (sorted_setCO l 1 (by omega) (by omega)).insertionSort_eq

/-- C2, counterexample: moving the selection `[a, b]` (custom orders
00002, 00003) before the target `t` (custom order 00001) and re-sorting
by the custom-order text yields rows in identity order `[b, a, t]` —
the selected rows are reversed, not kept in relative order. -/
theorem moveItems_claim_counterexample :
    (itemsCustomOrder (rowsOf (moveItems ["Name", "Custom Order"]
        [⟨2, [("Custom Order", "00001")], []⟩, ⟨0, [("Custom Order", "00002")], []⟩,
         ⟨1, [("Custom Order", "00003")], []⟩]
        [⟨0, [("Custom Order", "00002")], []⟩, ⟨1, [("Custom Order", "00003")], []⟩]
        (some ⟨2, [("Custom Order", "00001")], []⟩) none SOrder.asc))).map Row.rid
      = [1, 0, 2] ∧
    ¬ ∃ A B : List Nat, ([1, 0, 2] : List Nat) = A ++ [0, 1] ++ 2 :: B := by
  constructor
  · rfl
  · rintro ⟨A, B, hAB⟩
    have hlen := congrArg List.length hAB
    simp [List.length_append] at hlen
    have hA : A = [] := List.eq_nil_of_length_eq_zero (by omega)
    have hB : B = [] := List.eq_nil_of_length_eq_zero (by omega)
    rw [hA, hB] at hAB
    exact absurd hAB (by decide)

/-- C2, amended: when no selected row precedes the target in the custom
order, `moveItems` followed by re-sorting by the "Custom Order" text
places the selected rows as a contiguous block immediately before the
target — and at the head when no target is given — but in reverse of
their order in the selection argument (repeated `list.insert` at the
same index reverses them); every assigned rank string is a zero-padded
decimal of width exactly 5 provided the widget holds at most 99999
rows. -/
theorem moveItems_reversed_block_before_target (labels : List String)
    (widget sel pre post : List Row) (t : Row) (go : SOrder)
    (hlab : labelFromColumn labels (columnFromLabel labels "Custom Order") = "Custom Order")
    (hord : itemsCustomOrder widget = pre ++ t :: post)
    (hnd : (pre ++ t :: post).Nodup)
    (hsel : ∀ s ∈ sel, s ∈ post)
    (hselnd : sel.Nodup)
    (hlen : widget.length ≤ 99999) :
    (∃ tail : List Row,
      (itemsCustomOrder (rowsOf (moveItems labels widget sel (some t) none go))).map Row.rid
        = pre.map Row.rid ++ (sel.map Row.rid).reverse ++ t.rid :: tail.map Row.rid) ∧
    (∀ x ∈ rowsOf (moveItems labels widget sel (some t) none go),
      (x.text "Custom Order").data.length = 5) ∧
    (∃ tail2 : List Row,
      (itemsCustomOrder (rowsOf (moveItems labels widget sel none none go))).map Row.rid
        = (sel.map Row.rid).reverse ++ tail2.map Row.rid) := by
  have ht_pre : t ∉ pre := by
    obtain ⟨_, _, hdisj⟩ := List.nodup_append.mp hnd
    exact fun ht => hdisj ht (List.mem_cons_self _ _)
  have hrow : (itemsCustomOrder widget).indexOf t = pre.length := by
    rw [hord]
    exact indexOf_middle pre post t ht_pre
  obtain ⟨e1, e2⟩ := eraseFold_decomp sel pre post t hnd hselnd hsel
  have hremaining : sel.foldl List.erase (itemsCustomOrder widget)
      = pre ++ t :: sel.foldl List.erase post := by
    rw [hord]
    exact e1
  have hreinserted : sel.foldl (fun acc s => pyInsert acc pre.length s)
      (pre ++ t :: sel.foldl List.erase post)
      = pre ++ sel.reverse ++ t :: sel.foldl List.erase post :=
    foldl_pyInsert pre sel (t :: sel.foldl List.erase post)
  have hlen_ordered : (itemsCustomOrder widget).length = widget.length :=
    List.length_insertionSort _ _
  have hlen_parts : pre.length + post.length + 1 = widget.length := by
    rw [← hlen_ordered, hord]
    simp [List.length_append]
    omega
  have hlen_arranged : (pre ++ sel.reverse ++ t :: sel.foldl List.erase post).length ≤ 99999 := by
    simp only [List.length_append, List.length_cons, List.length_reverse]
    omega
  have hmove : moveItems labels widget sel (some t) none go
      = sortByColumn labels (some (columnFromLabel labels "Custom Order")) SOrder.asc
          none (some go) go
          (setItemsCustomOrder (pre ++ sel.reverse ++ t :: sel.foldl List.erase post) 1) := by
    simp only [moveItems, hrow, hremaining, hreinserted]
  have hrows : rowsOf (moveItems labels widget sel (some t) none go)
      = setItemsCustomOrder (pre ++ sel.reverse ++ t :: sel.foldl List.erase post) 1 := by
    rw [hmove]
    exact sortByColumn_custom_relabeled labels _ go hlab hlen_arranged
  refine ⟨?_, ?_, ?_⟩
  · refine ⟨sel.foldl List.erase post, ?_⟩
    rw [hrows, itemsCustomOrder_relabeled _ hlen_arranged, setCO_map_rid]
    simp [List.map_append, List.map_reverse]
  · intro x hx
    rw [hrows] at hx
    obtain ⟨j, hj, hxt⟩ := mem_setCO _ 1 x hx
    rw [hxt]
    refine rank_length (1 + j) ?_
    have := hlen_arranged
    omega
  · have hsel_ord : ∀ s ∈ sel, s ∈ itemsCustomOrder widget := by
      intro s hs
      rw [hord]
      exact List.mem_append.mpr (Or.inr (List.mem_cons_of_mem _ (hsel s hs)))
    have hlen_rem := eraseFold_length sel (itemsCustomOrder widget) hselnd hsel_ord
    have hreins : sel.foldl (fun acc s => pyInsert acc 0 s)
        (sel.foldl List.erase (itemsCustomOrder widget))
        = sel.reverse ++ sel.foldl List.erase (itemsCustomOrder widget) := by
      have := foldl_pyInsert [] sel (sel.foldl List.erase (itemsCustomOrder widget))
      simpa using this
    have hmove2 : moveItems labels widget sel none none go
        = sortByColumn labels (some (columnFromLabel labels "Custom Order")) SOrder.asc
            none (some go) go
            (setItemsCustomOrder
              (sel.reverse ++ sel.foldl List.erase (itemsCustomOrder widget)) 1) := by
      simp only [moveItems, hreins]
    have hb : (sel.reverse ++ sel.foldl List.erase (itemsCustomOrder widget)).length
        ≤ 99999 := by
      simp only [List.length_append, List.length_reverse]
      omega
    have hrows2 : rowsOf (moveItems labels widget sel none none go)
        = setItemsCustomOrder
            (sel.reverse ++ sel.foldl List.erase (itemsCustomOrder widget)) 1 := by
      rw [hmove2]
      exact sortByColumn_custom_relabeled labels _ go hlab hb
    refine ⟨sel.foldl List.erase (itemsCustomOrder widget), ?_⟩
    rw [hrows2, itemsCustomOrder_relabeled _ hb, setCO_map_rid]
    simp [List.map_append, List.map_reverse]

/-- Witness for `moveItems_reversed_block_before_target` at a concrete
input: the whole selection follows the target in the custom order, and
the moved block lands immediately before the target, reversed. -/
theorem moveItems_reversed_block_before_target_witness :
    ∃ tail : List Row,
      (itemsCustomOrder (rowsOf (moveItems ["Name", "Custom Order"]
          [⟨0, [("Custom Order", "00001")], []⟩, ⟨1, [("Custom Order", "00002")], []⟩,
           ⟨2, [("Custom Order", "00003")], []⟩]
          [⟨1, [("Custom Order", "00002")], []⟩, ⟨2, [("Custom Order", "00003")], []⟩]
          (some ⟨0, [("Custom Order", "00001")], []⟩) none SOrder.asc))).map Row.rid
        = ([] : List Row).map Row.rid
          ++ (([⟨1, [("Custom Order", "00002")], []⟩,
                ⟨2, [("Custom Order", "00003")], []⟩] : List Row).map Row.rid).reverse
          ++ (⟨0, [("Custom Order", "00001")], []⟩ : Row).rid :: tail.map Row.rid :=
  (moveItems_reversed_block_before_target ["Name", "Custom Order"]
    [⟨0, [("Custom Order", "00001")], []⟩, ⟨1, [("Custom Order", "00002")], []⟩,
     ⟨2, [("Custom Order", "00003")], []⟩]
    [⟨1, [("Custom Order", "00002")], []⟩, ⟨2, [("Custom Order", "00003")], []⟩]
    []
    [⟨1, [("Custom Order", "00002")], []⟩, ⟨2, [("Custom Order", "00003")], []⟩]
    ⟨0, [("Custom Order", "00001")], []⟩ SOrder.asc
    (by decide) (by decide) (by decide) (by decide) (by decide) (by decide)).1

end StudioLibrary
